import Mathlib

/-!
# Verification of the salt-shaker dependency-resolution core

A shallow embedding, in Lean 4, of the constraint parsing/merging logic
(`shaker/libs/metadata.py`), the tag classification and selection logic
(`shaker/libs/github.py`), the recursive dependency traversal
(`shaker/shaker_metadata.py`) and the lockfile round trip
(`shaker/shaker_remote.py` with `shaker/libs/metadata.py`) of the
ministryofjustice/salt-shaker repository, together with theorems settling
the specification claims about that code.

Python strings are modelled as Lean `String`/`List Char` (the repository
only handles ASCII identifiers, tags and URLs, where Python 2 byte-wise
comparison agrees with Lean's `Char` comparison).  A raised Python
exception is modelled by an `Except`-style error value of type `PyErr`.
-/

set_option maxRecDepth 4000

deriving instance DecidableEq for Except

namespace SaltShaker

/-- The Python exceptions that the embedded code can raise.
`constraintResolution` and `constraintFormat` are the repository's own
`ConstraintResolutionException` / `ConstraintFormatException`; `attrError`,
`typeError`, `keyError` and `indexError` model the builtin `AttributeError`,
`TypeError`, `KeyError` and `IndexError`; `connectionError` models
`GithubRepositoryConnectionException`; `requirementsParsing` models
`ShakerRequirementsParsingException`; `recursionLimit` models Python's
`RuntimeError` for exceeded recursion depth (reaching it in the model means
the chosen fuel was insufficient, it is never produced in the runs below). -/
inductive PyErr where
  | constraintResolution
  | constraintFormat
  | attrError
  | typeError
  | keyError
  | indexError
  | connectionError
  | recursionLimit
  | requirementsParsing
  deriving DecidableEq, Repr

/-! ## Python primitives -/

/-- Python 2 byte-wise string comparison `a < b`, on char lists
(agrees with CPython for the ASCII data handled by the repository). -/
def pyCharsLt : List Char → List Char → Bool
  | [], [] => false
  | [], _ :: _ => true
  | _ :: _, [] => false
  | a :: as, b :: bs =>
    if a.val < b.val then true
    else if b.val < a.val then false
    else pyCharsLt as bs

/-- Python string comparison `a < b`. -/
def pyStrLt (a b : String) : Bool := pyCharsLt a.data b.data

/-- Python string comparison `a >= b`. -/
def pyStrGe (a b : String) : Bool := !pyStrLt a b

/-- Python string comparison `a <= b`. -/
def pyStrLe (a b : String) : Bool := !pyStrLt b a

/-- Python `max(a, b)` on strings (`b` wins ties, as in CPython
`max` which keeps the first argument on ties — `max(a,b)` returns `a`
if `b <= a`). -/
def pyStrMax (a b : String) : String := if pyStrLt a b then b else a

/-- Python `min(a, b)` on strings. -/
def pyStrMin (a b : String) : String := if pyStrLt b a then b else a

/-- Python truthiness of an optional string (`None` and `''` are falsy). -/
def pyTruthyStr : Option String → Bool
  | none => false
  | some s => !s.isEmpty

/-- Python truthiness of an optional list (`None` and `[]` are falsy). -/
def pyTruthyList : Option (List String) → Bool
  | none => false
  | some l => !l.isEmpty

/-- Python `\s` whitespace class (` \t\n\r\f\v`). -/
def pyIsSpace (c : Char) : Bool :=
  c == ' ' || c == '\t' || c == '\n' || c == '\r' || c == '\x0c' || c == '\x0b'

/-! ## `shaker/libs/metadata.py`: `parse_constraint`

The source applies `comparator_re = re.compile('([=><]+)\\s*(.*)')` with
`re.search`, then reads `match.group(1)` / `match.group(2)`.  When the
string contains no comparator character the search returns `None` and the
attribute access raises `AttributeError`; the embedding returns `none` in
that case. -/

/-- A character of the regex class `[=><]`. -/
def isCompChar (c : Char) : Bool := c == '=' || c == '>' || c == '<'

/-- `re.search('([=><]+)\\s*(.*)', s)`: scan for the first comparator
character; group 1 is the maximal run of comparator characters from there,
then `\s*` skips whitespace and group 2 is the remainder of the string. -/
def searchComparator : List Char → Option (List Char × List Char)
  | [] => none
  | c :: rest =>
    if isCompChar c then
      some (c :: rest.takeWhile isCompChar,
            (rest.dropWhile isCompChar).dropWhile pyIsSpace)
    else searchComparator rest

/-- The result dictionary of `parse_constraint`.  The source's `postfix`
key is called `pfix` here. -/
structure ConstraintInfo where
  comparator : String
  tag : String
  version : Option String
  pfix : Option String
  deriving DecidableEq, Repr

/-- `parse('v{version}-{postfix}', tag)` of the `parse` library: the whole
string must be `v` + a non-empty `{version}` + `-` + a non-empty
`{postfix}`; the lazy `{version}` stops at the first `-` that leaves a
non-empty remainder. -/
def findDashSplit (acc : List Char) : List Char → Option (List Char × List Char)
  | [] => none
  | c :: rest =>
    if c == '-' && !acc.isEmpty && !rest.isEmpty then some (acc.reverse, rest)
    else findDashSplit (c :: acc) rest

/-- `version`/`postfix` extraction of `parse_constraint` (lines 97-107 of
`metadata.py`): try `parse('v{version}-{postfix}', tag)`, then
`parse('v{version}', tag)`, else leave both `None`. -/
def parseTagVersion (tag : String) : Option String × Option String :=
  match tag.data with
  | 'v' :: rest =>
    match findDashSplit [] rest with
    | some (v, p) => (some (String.mk v), some (String.mk p))
    | none => if rest.isEmpty then (none, none) else (some (String.mk rest), none)
  | _ => (none, none)

/-- `metadata.parse_constraint`.  `none` models the `AttributeError`
raised on `match.group(1)` when the comparator regex does not match. -/
def parse_constraint (constraint : String) : Option ConstraintInfo :=
  match searchComparator constraint.data with
  | none => none
  | some (comp, tag) =>
    let (version, pfix) := parseTagVersion (String.mk tag)
    some ⟨String.mk comp, String.mk tag, version, pfix⟩

/-! ## `shaker/libs/metadata.py`: `resolve_constraints` -/

/-- `metadata.resolve_constraints(new_constraint, current_constraint)`
(lines 115-190 of `metadata.py`).  Note that `parse_constraint` always
returns a (truthy) four-key dictionary when it does not raise, so the
source's final `ConstraintFormatException` branch for falsy parse results
is unreachable; a raise inside `parse_constraint` is an `attrError` here. -/
def resolve_constraints (new_constraint current_constraint : String) :
    Except PyErr String :=
  let have_new := !new_constraint.isEmpty
  let have_current := !current_constraint.isEmpty
  if !have_new && !have_current then .ok ""
  else if !have_new && have_current then .ok current_constraint
  else if have_new && !have_current then .ok new_constraint
  else
    match parse_constraint new_constraint with
    | none => .error .attrError
    | some new_res =>
      match parse_constraint current_constraint with
      | none => .error .attrError
      | some current_res =>
        if current_res.comparator == "==" then .ok current_constraint
        else if new_res.comparator == "==" then .ok new_constraint
        else if new_res.comparator != current_res.comparator then
          .error .constraintResolution
        else if new_res.comparator == ">=" then
          .ok (">=" ++ pyStrMax new_res.tag current_res.tag)
        else if new_res.comparator == "<=" then
          .ok ("<=" ++ pyStrMin new_res.tag current_res.tag)
        else .error .constraintFormat

example : parse_constraint ">=v1.0" =
    some ⟨">=", "v1.0", some "1.0", none⟩ := by decide
example : parse_constraint "==v2.2.2-pre" =
    some ⟨"==", "v2.2.2-pre", some "2.2.2", some "pre"⟩ := by decide

theorem string_isEmpty_false {s : String} (h : s ≠ "") : s.isEmpty = false := by
  cases he : s.isEmpty
  · rfl
  · exact absurd ((String.isEmpty_iff s).mp he) h

/-- Claim C2: for any two non-empty parseable constraint strings,
`resolve_constraints` gives equality absolute precedence — if the current
constraint's comparator is `==` the result is the current constraint,
otherwise if the new constraint's comparator is `==` the result is the new
constraint; in particular `resolve_constraints("==v1.0", ">=v0.9")` and
`resolve_constraints(">=v0.9", "==v1.0")` both return `==v1.0`. -/
theorem resolve_constraints_equality_precedence :
    (∀ (n c : String) (ni ci : ConstraintInfo),
      n ≠ "" → c ≠ "" →
      parse_constraint n = some ni → parse_constraint c = some ci →
      (ci.comparator = "==" → resolve_constraints n c = .ok c) ∧
      (ci.comparator ≠ "==" → ni.comparator = "==" →
        resolve_constraints n c = .ok n)) ∧
    resolve_constraints "==v1.0" ">=v0.9" = .ok "==v1.0" ∧
    resolve_constraints ">=v0.9" "==v1.0" = .ok "==v1.0" := by
  refine ⟨?_, by decide, by decide⟩
  intro n c ni ci hn hc hpn hpc
  have hn' := string_isEmpty_false hn
  have hc' := string_isEmpty_false hc
  constructor
  · intro hceq
    simp [resolve_constraints, hn', hc', hpn, hpc, hceq]
  · intro hcne hneq
    simp only [resolve_constraints, hn', hc', hpn, hpc, hneq, beq_iff_eq,
      Bool.not_false, Bool.and_self, Bool.false_and, Bool.and_false]
    simp [hcne]

/-- Witness for C2: the general part applied at the concrete input
`resolve_constraints(">=v0.9", "==v1.0")`. -/
theorem resolve_constraints_equality_precedence_witness :
    resolve_constraints ">=v0.9" "==v1.0" = .ok "==v1.0" :=
  (resolve_constraints_equality_precedence.1 ">=v0.9" "==v1.0"
      ⟨">=", "v0.9", some "0.9", none⟩ ⟨"==", "v1.0", some "1.0", none⟩
      (by decide) (by decide) (by decide) (by decide)).1 (by decide)

/-- Claim C3: for any two non-empty parseable constraints whose comparators
differ and neither of which is `==`, `resolve_constraints` raises
`ConstraintResolutionException`; in particular
`resolve_constraints(">=v1.0", "<=v2.0")` raises it. -/
theorem resolve_constraints_contradiction :
    (∀ (n c : String) (ni ci : ConstraintInfo),
      n ≠ "" → c ≠ "" →
      parse_constraint n = some ni → parse_constraint c = some ci →
      ni.comparator ≠ "==" → ci.comparator ≠ "==" →
      ni.comparator ≠ ci.comparator →
      resolve_constraints n c = .error .constraintResolution) ∧
    resolve_constraints ">=v1.0" "<=v2.0" = .error .constraintResolution := by
  refine ⟨?_, by decide⟩
  intro n c ni ci hn hc hpn hpc hne hce hdiff
  have hn' := string_isEmpty_false hn
  have hc' := string_isEmpty_false hc
  simp only [resolve_constraints, hn', hc', hpn, hpc, beq_iff_eq, bne_iff_ne,
    Bool.not_false, Bool.and_self, Bool.false_and, Bool.and_false]
  simp [hne, hce, hdiff]

/-- Witness for C3: the general part applied at
`resolve_constraints(">=v1.0", "<=v2.0")`. -/
theorem resolve_constraints_contradiction_witness :
    resolve_constraints ">=v1.0" "<=v2.0" = .error .constraintResolution :=
  resolve_constraints_contradiction.1 ">=v1.0" "<=v2.0"
    ⟨">=", "v1.0", some "1.0", none⟩ ⟨"<=", "v2.0", some "2.0", none⟩
    (by decide) (by decide) (by decide) (by decide)
    (by decide) (by decide) (by decide)

/-- Counterexample to claim C7: `parse_constraint` is claimed never to
raise, returning a neutral result for non-matching strings including the
empty string; but on the empty string the comparator regex search returns
`None` and `match.group(1)` raises `AttributeError` (modelled by `none`). -/
theorem parse_constraint_raises_on_empty : parse_constraint "" = none := by
  decide

theorem searchComparator_isSome (l : List Char) :
    (searchComparator l).isSome = l.any isCompChar := by
  induction l with
  | nil => rfl
  | cons c rest ih =>
    by_cases h : isCompChar c = true
    · simp [searchComparator, h]
    · simp only [Bool.not_eq_true] at h
      simp [searchComparator, h, ih]

/-- Claim C7 (amended): `parse_constraint` returns a result exactly for
the strings containing at least one comparator character `[=><]`; for
every other string — including the empty string — it raises
`AttributeError` instead of returning a neutral result. -/
theorem parse_constraint_raises_iff_no_comparator (s : String) :
    (parse_constraint s).isSome = s.data.any isCompChar := by
  unfold parse_constraint
  cases h : searchComparator s.data with
  | none =>
    have := searchComparator_isSome s.data
    rw [h] at this
    simp [← this]
  | some p =>
    have := searchComparator_isSome s.data
    rw [h] at this
    simp [← this]

/-- Witness for C7's amended theorem at the concrete inputs `""` (raises)
and `">=v1.0"` (returns). -/
theorem parse_constraint_raises_iff_no_comparator_witness :
    (parse_constraint "").isSome = ("" : String).data.any isCompChar ∧
    (parse_constraint ">=v1.0").isSome = (">=v1.0" : String).data.any isCompChar :=
  ⟨parse_constraint_raises_iff_no_comparator "",
   parse_constraint_raises_iff_no_comparator ">=v1.0"⟩

/-! ## `shaker/libs/github.py`: `parse_semver_tag` and tag classification

`parse_semver_tag` matches the tag against three regexes (with unescaped
dots, so `.` matches any character, and Python backtracking semantics):

  release            `v(\d+).(\d+).(\d+)$`
  prerelease         `v(\d+).(\d+).(\d+)-(.+)`
  prerelease-compat  `v(\d+).(\d+).(\d+)(.+)`

The matcher below implements one-or-more-digits groups with greedy
backtracking (`munchDigits`), single any-character positions, and the
three different pattern tails. -/

/-- Backtracking continuation matcher for a `(\d+)` group that has already
consumed the non-empty digit run `acc` (in reverse): prefer consuming one
more digit; on failure hand the remainder to the continuation `tail`. -/
def munchDigitsAux {γ : Type} (tail : List Char → Option γ) (acc : List Char) :
    List Char → Option (List Char × γ)
  | [] => (tail []).map (fun g => (acc.reverse, g))
  | c :: r =>
    match (if c.isDigit then munchDigitsAux tail (c :: acc) r else none) with
    | some res => some res
    | none => (tail (c :: r)).map (fun g => (acc.reverse, g))

/-- `(\d+)` group: consume one or more digits (greedy, with backtracking),
then match the continuation `tail`; returns the digits consumed and the
continuation's result. -/
def munchDigits {γ : Type} (tail : List Char → Option γ) :
    List Char → Option (List Char × γ)
  | [] => none
  | c :: r => if c.isDigit then munchDigitsAux tail [c] r else none

/-- The common `v(\d+).(\d+).(\d+)` part of the three tag regexes (the
dots are unescaped in the source, so they match any single character);
`tailSpec` is the pattern tail after the third digit group. -/
def matchTriple {γ : Type} (tailSpec : List Char → Option γ) :
    List Char → Option (List Char × List Char × List Char × γ)
  | 'v' :: s1 =>
    munchDigits (fun t1 =>
      match t1 with
      | _ :: s2 =>
        munchDigits (fun t2 =>
          match t2 with
          | _ :: s3 => munchDigits tailSpec s3
          | [] => none) s2
      | [] => none) s1
  | _ => none

/-- Tail of the release regex: `$` (end of string). -/
def releaseTail (s : List Char) : Option Unit :=
  if s.isEmpty then some () else none

/-- Tail of the prerelease regex: a literal `-` then the greedy group
`(.+)` capturing the (non-empty) remainder. -/
def preTail : List Char → Option (List Char)
  | '-' :: p => if p.isEmpty then none else some p
  | _ => none

/-- Tail of the prerelease-compat regex: the greedy group `(.+)` capturing
the (non-empty) remainder. -/
def compatTail (s : List Char) : Option (List Char) :=
  if s.isEmpty then none else some s

/-- Numeric value of a digit run (Python `int`). -/
def charsToNat (l : List Char) : Nat :=
  l.foldl (fun n c => n * 10 + (c.toNat - 48)) 0

/-- `parse('v{major:d}.{minor:d}.{patch:d}', tag)`: literal dots, digit
groups, anchored at both ends. -/
def parseVdotted (tag : String) : Option (Nat × Nat × Nat) :=
  match tag.data with
  | 'v' :: rest =>
    let a := rest.takeWhile Char.isDigit
    match rest.dropWhile Char.isDigit with
    | '.' :: r2 =>
      let b := r2.takeWhile Char.isDigit
      match r2.dropWhile Char.isDigit with
      | '.' :: r4 =>
        if !a.isEmpty && !b.isEmpty && !r4.isEmpty && r4.all Char.isDigit then
          some (charsToNat a, charsToNat b, charsToNat r4)
        else none
      | _ => none
    | _ => none
  | _ => none

/-- `parse('v{major:d}.{minor:d}.{patch:d}-{postfix}', tag)`: literal dots
and dash, digit groups, non-empty postfix, anchored at both ends. -/
def parseVdottedDash (tag : String) : Option (Nat × Nat × Nat × String) :=
  match tag.data with
  | 'v' :: rest =>
    let a := rest.takeWhile Char.isDigit
    match rest.dropWhile Char.isDigit with
    | '.' :: r2 =>
      let b := r2.takeWhile Char.isDigit
      match r2.dropWhile Char.isDigit with
      | '.' :: r4 =>
        let c := r4.takeWhile Char.isDigit
        match r4.dropWhile Char.isDigit with
        | '-' :: p =>
          if !a.isEmpty && !b.isEmpty && !c.isEmpty && !p.isEmpty then
            some (charsToNat a, charsToNat b, charsToNat c, String.mk p)
          else none
        | _ => none
      | _ => none
    | _ => none
  | _ => none

/-- The result dictionary of `parse_semver_tag`; the source's `postfix`
key is called `pfix` here. -/
structure SemverRet where
  major : Option Nat
  minor : Option Nat
  patch : Option Nat
  pfix : Option String
  deriving DecidableEq, Repr

/-- `github.parse_semver_tag` (lines 81-149 of `github.py`).  The release
and prerelease branches re-extract the groups with the `parse` library
(literal dots there, unlike the regexes); when the regex matched but the
`parse` pattern does not, the source subscripts `None` and raises
`TypeError` — modelled by `none`.  The compat branch takes the groups from
the regex itself. -/
def parse_semver_tag (tag : String) : Option SemverRet :=
  if (matchTriple releaseTail tag.data).isSome then
    match parseVdotted tag with
    | some (a, b, c) => some ⟨some a, some b, some c, none⟩
    | none => none
  else if (matchTriple preTail tag.data).isSome then
    match parseVdottedDash tag with
    | some (a, b, c, p) => some ⟨some a, some b, some c, some p⟩
    | none => none
  else
    match matchTriple compatTail tag.data with
    | some (d1, d2, d3, rest) =>
      some ⟨some (charsToNat d1), some (charsToNat d2), some (charsToNat d3),
            some (String.mk rest)⟩
    | none => some ⟨none, none, none, none⟩

/-- `github.is_tag_release` (lines 357-385): all three numeric fields
parsed and the postfix is falsy. -/
def is_tag_release (tag : String) : Except PyErr Bool :=
  match parse_semver_tag tag with
  | none => .error .typeError
  | some r =>
    if !(r.major.isSome && r.minor.isSome && r.patch.isSome) then .ok false
    else if pyTruthyStr r.pfix then .ok false
    else .ok true

/-- `github.is_tag_prerelease` (lines 388-412): all three numeric fields
parsed and the postfix is truthy. -/
def is_tag_prerelease (tag : String) : Except PyErr Bool :=
  match parse_semver_tag tag with
  | none => .error .typeError
  | some r =>
    if (r.major.isSome && r.minor.isSome && r.patch.isSome) && pyTruthyStr r.pfix
    then .ok true
    else .ok false

example : parse_semver_tag "v1.2.3" = some ⟨some 1, some 2, some 3, none⟩ := by
  decide
example : parse_semver_tag "v2.2.2-pre" =
    some ⟨some 2, some 2, some 2, some "pre"⟩ := by decide
example : parse_semver_tag "v3.3.3notsemver" =
    some ⟨some 3, some 3, some 3, some "notsemver"⟩ := by decide
example : parse_semver_tag "2.2.2-pre" = some ⟨none, none, none, none⟩ := by
  decide
example : is_tag_prerelease "2.2.2-pre" = .ok false := by decide
example : is_tag_prerelease "v3.3.3notsemver" = .ok true := by decide

/-! ## `distutils.version.LooseVersion` and `github.get_latest_tag`

`get_latest_tag` sorts the tag versions with `key=LooseVersion` (Python 2's
stable ascending sort) and scans the sorted list from highest to lowest.
`LooseVersion` splits a version string on the pattern `(\d+ | [a-z]+ | \.)`,
drops empty pieces and `.` pieces, converts digit runs to ints, and
compares the resulting mixed int/str lists with Python 2 semantics (any
int is smaller than any str). -/

/-- One `LooseVersion` component: an integer or a string piece. -/
inductive LTok where
  | num (n : Nat)
  | str (s : List Char)
  deriving DecidableEq, Repr

/-- Lowercase ASCII letter (the `[a-z]` of the `LooseVersion` split
pattern). -/
def isLowerAlpha (c : Char) : Bool := 'a' ≤ c && c ≤ 'z'

/-- The kind of characters forming one maximal run in the `LooseVersion`
split: a digit run, a lowercase run, or a run of separator characters (any
character the pattern does not match, other than `.` which is matched and
dropped). -/
inductive LRun where
  | digit
  | lower
  | sep
  deriving DecidableEq

/-- The run kind of a character; `none` for `.`, which terminates the
current run and is dropped. -/
def lrunOf (c : Char) : Option LRun :=
  if c.isDigit then some .digit
  else if isLowerAlpha c then some .lower
  else if c == '.' then none
  else some .sep

/-- Emit the component for a finished run (characters carried in
reverse). -/
def lflush : Option (LRun × List Char) → List LTok
  | none => []
  | some (.digit, acc) => [.num (charsToNat acc.reverse)]
  | some (.lower, acc) => [.str acc.reverse]
  | some (.sep, acc) => [.str acc.reverse]

/-- Single pass building the maximal runs of the `LooseVersion` split. -/
def looseAux : Option (LRun × List Char) → List Char → List LTok
  | cur, [] => lflush cur
  | cur, c :: s =>
    match lrunOf c with
    | none => lflush cur ++ looseAux none s
    | some k =>
      match cur with
      | none => looseAux (some (k, [c])) s
      | some (k', acc) =>
        if k = k' then looseAux (some (k', c :: acc)) s
        else lflush (some (k', acc)) ++ looseAux (some (k, [c])) s

/-- The `LooseVersion` component list of a version string. -/
def looseTokens (l : List Char) : List LTok := looseAux none l

/-- Python 2 comparison of two `LooseVersion` components: ints
numerically, strings byte-wise, and any int below any str. -/
def ltokLt : LTok → LTok → Bool
  | .num a, .num b => a < b
  | .str a, .str b => pyCharsLt a b
  | .num _, .str _ => true
  | .str _, .num _ => false

/-- Python 2 lexicographic comparison of component lists. -/
def ltoksLt : List LTok → List LTok → Bool
  | [], [] => false
  | [], _ :: _ => true
  | _ :: _, [] => false
  | a :: as, b :: bs =>
    if ltokLt a b then true
    else if ltokLt b a then false
    else ltoksLt as bs

/-- `LooseVersion(a) < LooseVersion(b)`. -/
def looseLt (a b : String) : Bool := ltoksLt (looseTokens a.data) (looseTokens b.data)

/-- Stable insertion into an ascending list (equal keys keep their
original relative order, as Python's sort does). -/
def insertLoose (x : String) : List String → List String
  | [] => [x]
  | y :: ys => if looseLt x y then x :: y :: ys else y :: insertLoose x ys

/-- `tag_versions.sort(key=LooseVersion)`: stable ascending sort. -/
def sortLoose (l : List String) : List String :=
  l.foldl (fun acc x => insertLoose x acc) []

/-- The scan loop of `get_latest_tag` over the (already reversed) sorted
list: classification errors propagate; the first version that qualifies
under the prerelease policy is returned. -/
def latestScan (include_prereleases : Bool) :
    List String → Except PyErr (Option String)
  | [] => .ok none
  | tv :: rest => do
    let rel ← is_tag_release ("v" ++ tv)
    let pre ← is_tag_prerelease ("v" ++ tv)
    if !include_prereleases then
      if rel && !pre then .ok (some tv) else latestScan include_prereleases rest
    else
      if rel || pre then .ok (some tv) else latestScan include_prereleases rest

/-- `github.get_latest_tag` (lines 312-354): sort by `LooseVersion`, scan
from highest to lowest. -/
def get_latest_tag (tag_versions : List String) (include_prereleases : Bool) :
    Except PyErr (Option String) :=
  latestScan include_prereleases (sortLoose tag_versions).reverse

/-- Plain byte-wise ascending string sort (`list.sort()` with no key), as
used on `tag_versions` in `get_valid_tags`. -/
def insertPlain (x : String) : List String → List String
  | [] => [x]
  | y :: ys => if pyStrLt x y then x :: y :: ys else y :: insertPlain x ys

/-- `tag_versions.sort()`. -/
def sortPlain (l : List String) : List String :=
  l.foldl (fun acc x => insertPlain x acc) []

/-- The tag-version list that `get_valid_tags` (lines 218-237 of
`github.py`) derives from the raw tag names: `convert_tag_to_semver`
always returns a four-element list, so `len(semver_info) > 0` never
filters anything; the only effective filter is `parse('v{tag}',
raw_name)`, which strips a leading `v` from every tag that has one and at
least one character after it.  The list is then sorted in place. -/
def deriveTagVersions (raw_names : List String) : List String :=
  sortPlain (raw_names.filterMap (fun raw =>
    match raw.data with
    | 'v' :: rest => if rest.isEmpty then none else some (String.mk rest)
    | _ => none))

example : deriveTagVersions ["v1.1.1", "v2.2.2-pre", "v3.3.3notsemver"] =
    ["1.1.1", "2.2.2-pre", "3.3.3notsemver"] := by decide

/-- Claim C8 evaluated on the code: for the tag-version list derived from
`["v1.1.1","v2.2.2-pre","v3.3.3notsemver"]`, `get_latest_tag` with
`include_prereleases=False` returns `"1.1.1"` as claimed, but with
`include_prereleases=True` it returns `"3.3.3notsemver"` — not the claimed
`"2.2.2-pre"` — because `v3.3.3notsemver` matches the prerelease-compat
regex (postfix `notsemver`), counts as a prerelease, and sorts above
`2.2.2-pre` under `LooseVersion`.  The repository's own test
(`test_get_latest_tag_prereleases`) expects the `2.2.2` prerelease on the
analogous input, so the code contradicts its own test suite here. -/
theorem get_latest_tag_prerelease_divergence :
    get_latest_tag (deriveTagVersions ["v1.1.1", "v2.2.2-pre", "v3.3.3notsemver"])
        false = .ok (some "1.1.1") ∧
    get_latest_tag (deriveTagVersions ["v1.1.1", "v2.2.2-pre", "v3.3.3notsemver"])
        true = .ok (some "3.3.3notsemver") := by
  constructor
  · decide
  · decide

/-! ## `shaker/libs/github.py`: `resolve_constraint_to_object`

The version-analysis portion (from line 493, after the branch-name and
empty-constraint early paths) is embedded over the already-fetched
`tag_versions` list and `tags_data` records of `get_valid_tags`.  Note
that in the `>=` and `<=` loops the source calls
`is_tag_prerelease(tag_version)` on the bare version string — without the
`v` prefix that `get_latest_tag` adds — and that the comparisons
`tag_version >= parsed_version` are Python 2 string comparisons. -/

/-- One raw tag record from the GitHub tags JSON (only the fields the
resolution uses). -/
structure TagData where
  name : String
  sha : String
  deriving DecidableEq, Repr

/-- The `for tag_data in tags_data: if tag_data["name"] == wanted: obj =
tag_data; break` lookup. -/
def findTagData (tags_data : List TagData) (wanted : String) : Option TagData :=
  tags_data.find? (fun td => td.name == wanted)

/-- The `>=` scan (lines 527-545): from highest to lowest; a candidate
below the requested version raises immediately; otherwise the candidate is
taken unless `is_tag_prerelease` holds for the bare version string. -/
def scanGe (parsed_version : String) :
    List String → Except PyErr (Option String)
  | [] => .ok none
  | tv :: rest =>
    if pyStrGe tv parsed_version then
      match is_tag_prerelease tv with
      | .error e => .error e
      | .ok true => scanGe parsed_version rest
      | .ok false => .ok (some tv)
    else .error .constraintResolution

/-- The `<=` scan (lines 547-559): from highest to lowest; candidates
above the requested version are passed over, a candidate at or below it is
taken unless `is_tag_prerelease` holds for the bare version string. -/
def scanLe (parsed_version : String) :
    List String → Except PyErr (Option String)
  | [] => .ok none
  | tv :: rest =>
    if pyStrLe tv parsed_version then
      match is_tag_prerelease tv with
      | .error e => .error e
      | .ok true => scanLe parsed_version rest
      | .ok false => .ok (some tv)
    else scanLe parsed_version rest

/-- The version-analysis part of `github.resolve_constraint_to_object`
(lines 493-602), given the constraint string and the `tag_versions` /
`tags_data` returned by `get_valid_tags`.  `.ok` carries the tag record
found by name lookup (`None` in the source if the lookup fails). -/
def resolveVersionConstraint (constraint : String)
    (tag_versions : List String) (tags_data : List TagData) :
    Except PyErr (Option TagData) :=
  match parse_constraint constraint with
  | none => .error .attrError
  | some parsed =>
    if !tag_versions.isEmpty && pyTruthyStr parsed.version then
      match parsed.version with
      | none => .error .constraintResolution
      | some version =>
        if parsed.comparator == "==" then
          if tag_versions.contains version then
            .ok (findTagData tags_data parsed.tag)
          else .error .constraintResolution
        else if parsed.comparator == ">=" then
          match scanGe version tag_versions.reverse with
          | .error e => .error e
          | .ok (some valid_version) =>
            .ok (findTagData tags_data ("v" ++ valid_version))
          | .ok none => .error .constraintResolution
        else if parsed.comparator == "<=" then
          match scanLe version tag_versions.reverse with
          | .error e => .error e
          | .ok (some valid_version) =>
            .ok (findTagData tags_data ("v" ++ valid_version))
          | .ok none => .error .constraintResolution
        else .error .constraintResolution
    else .error .constraintResolution

example : resolveVersionConstraint "==v1.0.1" ["1.0.1", "2.0.1"]
    [⟨"v1.0.1", "shaA"⟩, ⟨"v2.0.1", "shaB"⟩] = .ok (some ⟨"v1.0.1", "shaA"⟩) := by
  decide
example : resolveVersionConstraint ">=v1.1" ["1.0.1", "2.0.1"]
    [⟨"v1.0.1", "shaA"⟩, ⟨"v2.0.1", "shaB"⟩] = .ok (some ⟨"v2.0.1", "shaB"⟩) := by
  decide
example : resolveVersionConstraint ">=v2.1" ["1.0.1", "2.0.1"]
    [⟨"v1.0.1", "shaA"⟩, ⟨"v2.0.1", "shaB"⟩] = .error .constraintResolution := by
  decide
example : resolveVersionConstraint "<=v1.1" ["1.0.1", "2.0.1"]
    [⟨"v1.0.1", "shaA"⟩, ⟨"v2.0.1", "shaB"⟩] = .ok (some ⟨"v1.0.1", "shaA"⟩) := by
  decide

/-- Claim C1 evaluated on the code: with sorted tag versions
`["1.0.0", "2.0.0-pre"]` (tags `v1.0.0` and prerelease `v2.0.0-pre`) and
the constraint `>=v1.0.0`, the scan selects the prerelease `2.0.0-pre`
instead of skipping it, because `is_tag_prerelease` is called on the bare
version string — every tag regex requires a leading `v`, so the check is
always false here and the skip branch (with its "Skipping pre-release
version" log) is unreachable.  The claimed raise-immediately behaviour on
a candidate below the threshold does hold (second conjunct). -/
theorem resolve_ge_selects_prerelease :
    resolveVersionConstraint ">=v1.0.0" ["1.0.0", "2.0.0-pre"]
        [⟨"v1.0.0", "shaA"⟩, ⟨"v2.0.0-pre", "shaB"⟩] =
      .ok (some ⟨"v2.0.0-pre", "shaB"⟩) ∧
    resolveVersionConstraint ">=v3.0.0" ["1.0.0", "2.0.0-pre"]
        [⟨"v1.0.0", "shaA"⟩, ⟨"v2.0.0-pre", "shaB"⟩] =
      .error .constraintResolution := by
  constructor
  · decide
  · decide

/-- Claim C4: for an `==` constraint whose tag is version-shaped, if the
requested version appears verbatim in the tag-version list the tag's full
record is returned (when the name lookup in `tags_data` finds it, which it
always does for lists derived from the same tags JSON), and if it does not
appear `ConstraintResolutionException` is raised; in particular
`==v6.6.6` against `["1.0.1","2.0.1"]` raises. -/
theorem resolve_equality_constraint :
    (∀ (constraint version : String) (parsed : ConstraintInfo)
        (tag_versions : List String) (tags_data : List TagData),
      parse_constraint constraint = some parsed →
      parsed.comparator = "==" →
      parsed.version = some version → version ≠ "" →
      tag_versions ≠ [] →
      ((tag_versions.contains version = true →
        resolveVersionConstraint constraint tag_versions tags_data =
          .ok (findTagData tags_data parsed.tag)) ∧
       (tag_versions.contains version = false →
        resolveVersionConstraint constraint tag_versions tags_data =
          .error .constraintResolution))) ∧
    resolveVersionConstraint "==v6.6.6" ["1.0.1", "2.0.1"]
        [⟨"v1.0.1", "shaA"⟩, ⟨"v2.0.1", "shaB"⟩] = .error .constraintResolution := by
  refine ⟨?_, by decide⟩
  intro constraint version parsed tag_versions tags_data hp hcomp hv hvne htv
  have htv' : tag_versions.isEmpty = false := by
    cases tag_versions with
    | nil => exact absurd rfl htv
    | cons a l => rfl
  have hvt : pyTruthyStr (some version) = true := by
    simp [pyTruthyStr, string_isEmpty_false hvne]
  constructor
  · intro hmem
    have hm : version ∈ tag_versions := by simpa using hmem
    simp [resolveVersionConstraint, hp, htv', hvt, hv, hcomp, hm]
  · intro hmem
    have hm : version ∉ tag_versions := by simpa using hmem
    simp [resolveVersionConstraint, hp, htv', hvt, hv, hcomp, hm]

/-- Witness for C4: the general part applied at `==v1.0.1` against tags
`v1.0.1`/`v2.0.1` (found) and the raising case at `==v6.6.6`. -/
theorem resolve_equality_constraint_witness :
    resolveVersionConstraint "==v1.0.1" ["1.0.1", "2.0.1"]
        [⟨"v1.0.1", "shaA"⟩, ⟨"v2.0.1", "shaB"⟩] = .ok (some ⟨"v1.0.1", "shaA"⟩) := by
  have h := (resolve_equality_constraint.1 "==v1.0.1" "1.0.1"
      ⟨"==", "v1.0.1", some "1.0.1", none⟩ ["1.0.1", "2.0.1"]
      [⟨"v1.0.1", "shaA"⟩, ⟨"v2.0.1", "shaB"⟩]
      (by decide) (by decide) (by decide) (by decide) (by decide)).1 (by decide)
  rw [h]
  decide

/-! ## `github.parse_github_url` and `metadata.parse_metadata_requirements`

`parse_github_url` uses `url.split('.git')[1] != ''` to detect a
constraint, then the `parse` library patterns
`git@github.com:{organisation}/{name}.git{constraint}` (constraint case)
or `git@github.com:{organisation}/{name}.git` (no-constraint case).  The
`parse` library compiles `{x}` to the lazy group `(.+?)` anchored at both
ends of the string, so each group takes the shortest non-empty text that
lets the rest of the pattern match, with backtracking. -/

/-- The character list of the string `.git`. -/
def gitChars : List Char := ['.', 'g', 'i', 't']

/-- Substring test (`pat in s` for Python strings). -/
def containsSub (pat : List Char) : List Char → Bool
  | [] => pat.isEmpty
  | s@(_ :: r) => pat.isPrefixOf s || containsSub pat r

/-- Split at the first occurrence of `sep` (`none` if `sep` does not
occur).  Used for `url.split('.git')` — only the first two pieces of the
Python split are ever read. -/
def splitFirstSub (sep : List Char) : List Char → Option (List Char × List Char)
  | [] => if sep.isEmpty then some ([], []) else none
  | c :: r =>
    if sep.isPrefixOf (c :: r) then some ([], (c :: r).drop sep.length)
    else
      match splitFirstSub sep r with
      | some (a, b) => some (c :: a, b)
      | none => none

/-- `url.split('.git')[1]`: the text between the first occurrence of
`.git` and the next one (or the end); `none` models the `IndexError` when
`.git` does not occur at all. -/
def splitGitSecondPiece (url : List Char) : Option (List Char) :=
  match splitFirstSub gitChars url with
  | none => none
  | some (_, rest) =>
    match splitFirstSub gitChars rest with
    | some (a, _) => some a
    | none => some rest

/-- Strip a literal prefix. -/
def stripPrefixChars : List Char → List Char → Option (List Char)
  | [], s => some s
  | _ :: _, [] => none
  | p :: ps, c :: s => if p == c then stripPrefixChars ps s else none

/-- Lazy `{name}.git{constraint}` tail of the constraint pattern: the
shortest non-empty name followed by `.git` and a non-empty constraint
(scanning ahead on failure, as regex backtracking does). -/
def nameConSplit (acc : List Char) : List Char → Option (List Char × List Char)
  | [] => none
  | c :: r =>
    if gitChars.isPrefixOf (c :: r) && !acc.isEmpty && !((c :: r).drop 4).isEmpty
    then some (acc.reverse, (c :: r).drop 4)
    else nameConSplit (c :: acc) r

/-- Lazy `{organisation}/` head: at each `/` with a non-empty prefix, try
the tail pattern; on failure the `/` becomes part of the organisation. -/
def orgNameConSplit (acc : List Char) :
    List Char → Option (List Char × List Char × List Char)
  | [] => none
  | c :: r =>
    if c == '/' && !acc.isEmpty then
      match nameConSplit [] r with
      | some (name, con) => some (acc.reverse, name, con)
      | none => orgNameConSplit (c :: acc) r
    else orgNameConSplit (c :: acc) r

/-- Lazy `{name}.git` tail of the no-constraint pattern (anchored: the
remainder after `.git` must be empty). -/
def namePlainSplit (acc : List Char) : List Char → Option (List Char)
  | [] => none
  | c :: r =>
    if gitChars.isPrefixOf (c :: r) && !acc.isEmpty && ((c :: r).drop 4).isEmpty
    then some acc.reverse
    else namePlainSplit (c :: acc) r

/-- Lazy `{organisation}/` head for the no-constraint pattern. -/
def orgNamePlainSplit (acc : List Char) :
    List Char → Option (List Char × List Char)
  | [] => none
  | c :: r =>
    if c == '/' && !acc.isEmpty then
      match namePlainSplit [] r with
      | some name => some (acc.reverse, name)
      | none => orgNamePlainSplit (c :: acc) r
    else orgNamePlainSplit (c :: acc) r

/-- `parse("git@github.com:{organisation}/{name}.git{constraint}", url)`. -/
def parseGhConstrained (url : List Char) :
    Option (List Char × List Char × List Char) :=
  match stripPrefixChars "git@github.com:".data url with
  | none => none
  | some rest => orgNameConSplit [] rest

/-- `parse("git@github.com:{organisation}/{name}.git", url)`. -/
def parseGhPlain (url : List Char) : Option (List Char × List Char) :=
  match stripPrefixChars "git@github.com:".data url with
  | none => none
  | some rest => orgNamePlainSplit [] rest

/-- The result dictionary of `parse_github_url`. -/
structure GithubInfo where
  source : String
  name : String
  organisation : String
  constraint : String
  deriving DecidableEq, Repr

/-- `github.parse_github_url` (lines 21-78 of `github.py`).  The
`IndexError` from `url.split('.git')[1]` is re-raised as such; a failed
`parse` makes the source subscript `None`, raising `TypeError`. -/
def parse_github_url (url : String) : Except PyErr GithubInfo :=
  match splitGitSecondPiece url.data with
  | none => .error .indexError
  | some p1 =>
    if !p1.isEmpty then
      match parseGhConstrained url.data with
      | none => .error .typeError
      | some (org, name, con) =>
        .ok ⟨"git@github.com:" ++ String.mk org ++ "/" ++ String.mk name ++ ".git",
             String.mk name, String.mk org, String.mk con⟩
    else
      match parseGhPlain url.data with
      | none => .error .typeError
      | some (org, name) =>
        .ok ⟨"git@github.com:" ++ String.mk org ++ "/" ++ String.mk name ++ ".git",
             String.mk name, String.mk org, ""⟩

example : parse_github_url "git@github.com:test_organisation/test3-formula.git==v3.0.2" =
    .ok ⟨"git@github.com:test_organisation/test3-formula.git", "test3-formula",
         "test_organisation", "==v3.0.2"⟩ := by decide
example : parse_github_url "git@github.com:test_organisation/some-formula.git" =
    .ok ⟨"git@github.com:test_organisation/some-formula.git", "some-formula",
         "test_organisation", ""⟩ := by decide

/-- One entry of the dependency dictionaries of `shaker_metadata.py` /
`parse_metadata_requirements`.  Each field is `Option` because the source
stores plain Python dicts and some paths create entries with missing keys
(`_add_dependency_sourced` creates `{}` and sets only
`sourced_constraints`). -/
structure DepRec where
  source : Option String
  constraint : Option String
  sourced_constraints : Option (List String)
  organisation : Option String
  name : Option String
  deriving DecidableEq, Repr

/-- Dictionary lookup on the insertion-ordered association list used to
model Python dicts. -/
def dictGet (d : List (String × DepRec)) (k : String) : Option DepRec :=
  (d.find? (fun p => p.1 == k)).map Prod.snd

/-- Dictionary membership. -/
def dictHas (d : List (String × DepRec)) (k : String) : Bool :=
  d.any (fun p => p.1 == k)

/-- Dictionary update: replace in place if the key exists, else append. -/
def dictSet (d : List (String × DepRec)) (k : String) (v : DepRec) :
    List (String × DepRec) :=
  if dictHas d k then d.map (fun p => if p.1 == k then (p.1, v) else p)
  else d ++ [(k, v)]

/-- Python `str.strip()` with the `\s` whitespace class. -/
def pyStripChars (l : List Char) : List Char :=
  ((l.dropWhile pyIsSpace).reverse.dropWhile pyIsSpace).reverse

/-- The greedy search `re.search('(.*)([=><]{2})\s*(.*)', line)`: the
greedy leading `(.*)` puts the comparator group at the last two-character
window of comparator characters; group 3 is the remainder after `\s*`. -/
def lastCompWindow : List Char → Option (List Char × Char × Char × List Char)
  | [] => none
  | [_] => none
  | a :: b :: rest =>
    match lastCompWindow (b :: rest) with
    | some (p, x, y, q) => some (a :: p, x, y, q)
    | none =>
      if isCompChar a && isCompChar b then some ([], a, b, rest.dropWhile pyIsSpace)
      else none

/-- One line of `metadata.parse_metadata_requirements` (lines 225-280 of
`metadata.py`): raw-github lines go straight to `parse_github_url`;
otherwise a line matching the constraint regex is rebuilt into a github
url with `"git@github.com:{formula}.git{comparator}{version}"` (formula
and version stripped), and a line without a constraint into
`"git@github.com:{line}.git"`.  The resulting entry fails with
`ShakerRequirementsParsingException` when source, organisation or name is
falsy. -/
def parse_metadata_line (line : String) : Except PyErr (String × DepRec) :=
  let infoE : Except PyErr GithubInfo :=
    if containsSub gitChars line.data || containsSub "git@".data line.data then
      parse_github_url line
    else
      match lastCompWindow line.data with
      | some (g1, c1, c2, g3) =>
        parse_github_url ("git@github.com:" ++ String.mk (pyStripChars g1) ++
          ".git" ++ String.mk [c1, c2] ++ String.mk (pyStripChars g3))
      | none => parse_github_url ("git@github.com:" ++ line ++ ".git")
  match infoE with
  | .error e => .error e
  | .ok info =>
    let entry : DepRec :=
      { source := some info.source, constraint := some info.constraint,
        sourced_constraints := some [], organisation := some info.organisation,
        name := some info.name }
    if pyTruthyStr entry.source && pyTruthyStr entry.organisation &&
        pyTruthyStr entry.name then
      .ok (info.organisation ++ "/" ++ info.name, entry)
    else .error .requirementsParsing

/-- `metadata.parse_metadata_requirements` (lines 193-291): fold the lines
into a dictionary keyed `organisation/name` (later lines overwrite earlier
ones with the same key). -/
def parse_metadata_requirements :
    List String → List (String × DepRec) → Except PyErr (List (String × DepRec))
  | [], acc => .ok acc
  | line :: rest, acc =>
    match parse_metadata_line line with
    | .error e => .error e
    | .ok (key, entry) => parse_metadata_requirements rest (dictSet acc key entry)

example : parse_metadata_line "test_organisation/some-formula==v1.0" =
    .ok ("test_organisation/some-formula",
      { source := some "git@github.com:test_organisation/some-formula.git",
        constraint := some "==v1.0", sourced_constraints := some [],
        organisation := some "test_organisation", name := some "some-formula" }) := by
  decide
example : parse_metadata_line "test_organisation/some-formula" =
    .ok ("test_organisation/some-formula",
      { source := some "git@github.com:test_organisation/some-formula.git",
        constraint := some "", sourced_constraints := some [],
        organisation := some "test_organisation", name := some "some-formula" }) := by
  decide

/-! ## `shaker/shaker_metadata.py`: the dependency traversal

State of a resolution run: the accumulating `self.dependencies` dict and
(for the claims about remote calls) the ordered trace of `(package key,
constraint string)` pairs for which the run went to the remote.

The remote world is a parameter: `reqs org name constraint` is the parsed
content of the dependency's `formula-requirements.txt` as
`_fetch_remote_requirements` would return it (entries carrying their own
constraint with `sourced_constraints = [constraint]`), or `none` when the
repository has no requirements file; `hasMeta org name constraint` says
whether the `metadata.yml` fallback would find a file — in which case
`_fetch_remote_metadata` always raises (see claim C10), never returning
data. -/

/-- Resolution state: the `self.dependencies` dict plus the trace of
remote sourcing events. -/
structure MState where
  dependencies : List (String × DepRec)
  trace : List (String × String)
  deriving DecidableEq, Repr

/-- The remote world a resolution run talks to. -/
structure World where
  reqs : String → String → String → Option (List (String × DepRec))
  hasMeta : String → String → String → Bool

/-- `ShakerMetadata._add_dependency_sourced` (lines 619-639): prepend the
constraint to the entry's `sourced_constraints` (replacing a falsy value),
creating a bare `{}` entry when the key is absent. -/
def add_dependency_sourced (deps : List (String × DepRec))
    (key constraint : String) : List (String × DepRec) :=
  match dictGet deps key with
  | some cur =>
    let sourced :=
      if pyTruthyList cur.sourced_constraints
      then constraint :: cur.sourced_constraints.getD []
      else [constraint]
    dictSet deps key { cur with sourced_constraints := some sourced }
  | none =>
    dictSet deps key
      { source := none, constraint := none,
        sourced_constraints := some [constraint],
        organisation := none, name := none }

/-- The per-entry update loop of
`ShakerMetadata._add_dependencies_from_metadata` (lines 576-606): skip the
root key; insert unseen keys; for seen keys merge constraints through
`resolve_constraints` and concatenate `sourced_constraints`. -/
def addDepsLoop (root : Option String) :
    List (String × DepRec) → List (String × DepRec) →
    Except PyErr (List (String × DepRec))
  | [], deps => .ok deps
  | (k, entry) :: rest, deps =>
    if root == some k then addDepsLoop root rest deps
    else
      match dictGet deps k with
      | none => addDepsLoop root rest (dictSet deps k entry)
      | some cur =>
        match resolve_constraints (entry.constraint.getD "")
            (cur.constraint.getD "") with
        | .error e => .error e
        | .ok merged =>
          let updated : DepRec :=
            { cur with
              constraint := some merged,
              sourced_constraints :=
                some (cur.sourced_constraints.getD [] ++
                      entry.sourced_constraints.getD []) }
          addDepsLoop root rest (dictSet deps k updated)

/-- `ShakerMetadata._add_dependencies_from_metadata` (lines 553-617):
the metadata's `dependencies` value is a dict by the time it gets here, so
`parse_metadata_requirements` iterates over its keys — re-parsing the
plain `organisation/name` strings (which drops the constraints carried by
the entries).  Returns the updated global dict and the freshly parsed
dependency dict (which still contains the root key, unfiltered). -/
def add_dependencies_from_metadata (root : Option String)
    (md_keys : List String) (deps : List (String × DepRec)) :
    Except PyErr (List (String × DepRec) × List (String × DepRec)) :=
  match parse_metadata_requirements md_keys [] with
  | .error e => .error e
  | .ok parsed =>
    match addDepsLoop root parsed deps with
    | .error e => .error e
    | .ok deps2 => .ok (deps2, parsed)

/-- The skip conditions at the top of each `_fetch_dependencies` iteration
(lines 319-334): when the key is already in `self.dependencies`, skip if
the constraint is among its `sourced_constraints`, or if the key is the
root formula; a key not yet in the dict is never skipped (even the
root). -/
def skipCheck (deps : List (String × DepRec)) (root : Option String)
    (key constraint : String) : Bool :=
  match dictGet deps key with
  | some cur =>
    (cur.sourced_constraints.getD []).contains constraint || root == some key
  | none => false

/-- `ShakerMetadata._fetch_dependencies` (lines 278-382), fuel-indexed.
For each base entry: skip when the key is already present with this
constraint string among its `sourced_constraints`, or (when present) when
it equals the root key.  Otherwise go to the remote (one trace event per
visit): try the requirements file unless `ignore` is set; if absent, the
metadata fallback raises whenever it finds a file (claim C10).  Then mark
the constraint as sourced and recurse into the freshly parsed dict (the
recursive call passes `ignore_dependency_requirements` by default,
i.e. `false`).  The fuel only bounds the recursion depth and iteration
count of the model; `recursionLimit` is never reached with adequate
fuel. -/
def fetchLoop (world : World) (root : Option String) :
    Nat → Bool → List (String × DepRec) → MState → Except PyErr MState
  | _, _, [], st => .ok st
  | 0, _, _ :: _, _ => .error .recursionLimit
  | fuel + 1, ignore, (key, info) :: rest, st =>
    let constraint := info.constraint.getD ""
    if skipCheck st.dependencies root key constraint then
      fetchLoop world root fuel ignore rest st
    else
      match info.organisation, info.name with
      | some org, some formula =>
        let st1 : MState := { st with trace := st.trace ++ [(key, constraint)] }
        match (if ignore then none else world.reqs org formula constraint) with
        | some remote_requirements =>
          let st2 : MState :=
            { st1 with
              dependencies := add_dependency_sourced st1.dependencies key constraint }
          match add_dependencies_from_metadata root
              (remote_requirements.map Prod.fst) st2.dependencies with
          | .error e => .error e
          | .ok (deps3, remote_dependencies) =>
            match fetchLoop world root fuel false remote_dependencies
                { st2 with dependencies := deps3 } with
            | .error e => .error e
            | .ok st4 => fetchLoop world root fuel ignore rest st4
        | none =>
          if world.hasMeta org formula constraint then .error .keyError
          else
            let st2 : MState :=
              { st1 with
                dependencies := add_dependency_sourced st1.dependencies key constraint }
            fetchLoop world root fuel ignore rest st2
      | _, _ => .error .connectionError

/-- `ShakerMetadata.update_dependencies` (lines 119-152), metadata-seeded
path: when the root metadata declares no dependencies nothing happens;
otherwise `self.dependencies` is seeded with them and
`_fetch_dependencies` runs. -/
def update_dependencies (world : World) (root : Option String)
    (root_dependencies : List (String × DepRec)) (fuel : Nat) :
    Except PyErr MState :=
  if root_dependencies.isEmpty then .ok ⟨[], []⟩
  else fetchLoop world root fuel false root_dependencies ⟨root_dependencies, []⟩

/-- A fully parsed dependency entry, as `parse_metadata_requirements`
produces for a raw `organisation/name(==constraint)` line, with
`sourced_constraints` as `_fetch_remote_requirements` sets them. -/
def mkDepRec (org name con : String) (sourced : List String) : DepRec :=
  { source := some ("git@github.com:" ++ org ++ "/" ++ name ++ ".git"),
    constraint := some con, sourced_constraints := some sourced,
    organisation := some org, name := some name }

/-! ### Claim C5: cyclic graph `A → B → A`

Root `o/A` declares `o/B==v1.0`; `o/B`'s requirements file lists
`o/A==v1.0`; `o/A`'s requirements file lists `o/B==v1.0`. -/

/-- The remote world of the C5 scenario. -/
def c5World : World :=
  { reqs := fun org formula _ =>
      if org == "o" && formula == "B" then
        some [("o/A", mkDepRec "o" "A" "==v1.0" ["==v1.0"])]
      else if org == "o" && formula == "A" then
        some [("o/B", mkDepRec "o" "B" "==v1.0" ["==v1.0"])]
      else none,
    hasMeta := fun _ _ _ => false }

/-- The root metadata's dependency dict seeding the C5 run. -/
def c5Base : List (String × DepRec) := [("o/B", mkDepRec "o" "B" "==v1.0" [])]

/-- The key list of the final dependency dict of a run (empty on error). -/
def c5ResultKeys : List String :=
  match update_dependencies c5World (some "o/A") c5Base 20 with
  | .ok st => st.dependencies.map Prod.fst
  | .error _ => []

/-- The entry the final dict holds for the root key (on error `none`). -/
def c5ResultRootEntry : Option DepRec :=
  match update_dependencies c5World (some "o/A") c5Base 20 with
  | .ok st => dictGet st.dependencies "o/A"
  | .error _ => none

/-- Claim C5 evaluated on the code: resolving the cyclic graph `A → B → A`
terminates, but the final dependency dict *does* contain the root key
`o/A` — as a bare entry holding only `sourced_constraints` — because the
root-key skip in `_fetch_dependencies` only fires when the key is already
present in `self.dependencies`, while `_add_dependency_sourced`
unconditionally creates an entry for every visited key.  The root is
filtered from `_add_dependencies_from_metadata`'s updates (with a "Root
key found, ignoring" log), but the dict it returns still contains the
root, so the recursion visits it and the sourcing bookkeeping re-inserts
it. -/
theorem root_reenters_dependency_map :
    c5ResultKeys = ["o/B", "o/A"] ∧
    c5ResultRootEntry = some
      { source := none, constraint := none, sourced_constraints := some [""],
        organisation := none, name := none } := by
  constructor
  · decide
  · decide

/-! ### Claim C6: at most one remote fetch per (key, constraint) pair

The trace records one event per visit that reaches the remote.  The proof
shows that after each such visit the pair is *marked* — the key is in the
dict with the constraint among its `sourced_constraints` — that marks are
never lost by any state update of the traversal, and that a marked pair is
always skipped; hence the trace never repeats a pair. -/

theorem dictGet_cons (k0 : String) (v0 : DepRec) (t : List (String × DepRec))
    (k : String) :
    dictGet ((k0, v0) :: t) k = if k0 == k then some v0 else dictGet t k := by
  by_cases h : (k0 == k) = true
  · simp [dictGet, List.find?_cons_of_pos, h]
  · simp only [Bool.not_eq_true] at h
    simp [dictGet, List.find?_cons_of_neg, h]

theorem dictGet_map_self (t : List (String × DepRec)) (k : String) (v : DepRec)
    (hhas : dictHas t k = true) :
    dictGet (t.map (fun p => if p.1 == k then (p.1, v) else p)) k = some v := by
  induction t with
  | nil => simp [dictHas] at hhas
  | cons hd t ih =>
    obtain ⟨a, b⟩ := hd
    by_cases ha : (a == k) = true
    · have : (if (a, b).1 == k then ((a, b).1, v) else (a, b)) = (a, v) := by
        simp [ha]
      rw [List.map_cons, this, dictGet_cons, ha]
      simp
    · simp only [Bool.not_eq_true] at ha
      have hhas' : dictHas t k = true := by
        simpa [dictHas, List.any_cons, ha] using hhas
      have : (if (a, b).1 == k then ((a, b).1, v) else (a, b)) = (a, b) := by
        simp [ha]
      rw [List.map_cons, this, dictGet_cons, ha]
      simp only [Bool.false_eq_true, if_false]
      exact ih hhas'

theorem dictGet_map_ne (t : List (String × DepRec)) (k : String) (v : DepRec)
    (k' : String) (h : k' ≠ k) :
    dictGet (t.map (fun p => if p.1 == k then (p.1, v) else p)) k' = dictGet t k' := by
  induction t with
  | nil => rfl
  | cons hd t ih =>
    obtain ⟨a, b⟩ := hd
    by_cases ha : (a == k) = true
    · have hv : (if (a, b).1 == k then ((a, b).1, v) else (a, b)) = (a, v) := by
        simp [ha]
      have hak : a = k := by simpa using ha
      have ha' : (a == k') = false := by
        simp [hak]
        exact fun hc => absurd hc.symm h
      rw [List.map_cons, hv, dictGet_cons, dictGet_cons, ha']
      simp only [Bool.false_eq_true, if_false]
      exact ih
    · simp only [Bool.not_eq_true] at ha
      have hv : (if (a, b).1 == k then ((a, b).1, v) else (a, b)) = (a, b) := by
        simp [ha]
      rw [List.map_cons, hv, dictGet_cons, dictGet_cons]
      by_cases ha' : (a == k') = true
      · simp [ha']
      · simp only [Bool.not_eq_true] at ha'
        simp only [ha', if_false]
        exact ih

theorem dictGet_append_single_self (d : List (String × DepRec)) (k : String)
    (v : DepRec) (hhas : dictHas d k = false) :
    dictGet (d ++ [(k, v)]) k = some v := by
  induction d with
  | nil => simp [dictGet, List.find?]
  | cons hd t ih =>
    obtain ⟨a, b⟩ := hd
    have ha : (a == k) = false := by
      by_cases hc : (a == k) = true
      · simp [dictHas, List.any_cons, hc] at hhas
      · simpa using hc
    have hhas' : dictHas t k = false := by
      simpa [dictHas, List.any_cons, ha] using hhas
    rw [List.cons_append, dictGet_cons, ha]
    simp only [Bool.false_eq_true, if_false]
    exact ih hhas'

theorem dictGet_append_single_ne (d : List (String × DepRec)) (k : String)
    (v : DepRec) (k' : String) (h : k' ≠ k) :
    dictGet (d ++ [(k, v)]) k' = dictGet d k' := by
  induction d with
  | nil =>
    have hf : (k == k') = false := by
      simp
      exact fun hc => absurd hc.symm h
    simp [dictGet, List.find?, hf]
  | cons hd t ih =>
    obtain ⟨a, b⟩ := hd
    rw [List.cons_append, dictGet_cons, dictGet_cons]
    by_cases ha : (a == k') = true
    · simp [ha]
    · simp only [Bool.not_eq_true] at ha
      simp only [ha, if_false]
      exact ih

theorem dictGet_dictSet_self (d : List (String × DepRec)) (k : String)
    (v : DepRec) : dictGet (dictSet d k v) k = some v := by
  unfold dictSet
  by_cases hhas : dictHas d k
  · simp only [hhas, if_true]
    exact dictGet_map_self d k v hhas
  · simp only [Bool.not_eq_true] at hhas
    simp only [hhas, Bool.false_eq_true, if_false]
    exact dictGet_append_single_self d k v hhas

theorem dictGet_dictSet_ne (d : List (String × DepRec)) (k k' : String)
    (v : DepRec) (h : k' ≠ k) : dictGet (dictSet d k v) k' = dictGet d k' := by
  unfold dictSet
  by_cases hhas : dictHas d k
  · simp only [hhas, if_true]
    exact dictGet_map_ne d k v k' h
  · simp only [Bool.not_eq_true] at hhas
    simp only [hhas, Bool.false_eq_true, if_false]
    exact dictGet_append_single_ne d k v k' h

/-- A `(key, constraint)` pair is marked in the dict: the key is present
and the constraint is among its `sourced_constraints`. -/
def pairMarked (deps : List (String × DepRec)) (p : String × String) : Prop :=
  ∃ r, dictGet deps p.1 = some r ∧ p.2 ∈ r.sourced_constraints.getD []

theorem pairMarked_add_dependency_sourced_self
    (deps : List (String × DepRec)) (k c : String) :
    pairMarked (add_dependency_sourced deps k c) (k, c) := by
  unfold add_dependency_sourced
  cases h : dictGet deps k with
  | some cur =>
    refine ⟨_, dictGet_dictSet_self _ _ _, ?_⟩
    by_cases ht : pyTruthyList cur.sourced_constraints
    · simp [ht]
    · simp only [Bool.not_eq_true] at ht
      simp [ht]
  | none => exact ⟨_, dictGet_dictSet_self _ _ _, by simp⟩

theorem pairMarked_add_dependency_sourced_mono
    (deps : List (String × DepRec)) (k c : String) (p : String × String)
    (h : pairMarked deps p) : pairMarked (add_dependency_sourced deps k c) p := by
  obtain ⟨r, hget, hmem⟩ := h
  by_cases hk : p.1 = k
  · rw [hk] at hget
    unfold add_dependency_sourced
    rw [hget]
    refine ⟨_, by rw [hk]; exact dictGet_dictSet_self _ _ _, ?_⟩
    cases hs : r.sourced_constraints with
    | none => rw [hs] at hmem; simp at hmem
    | some l =>
      rw [hs] at hmem
      simp only [Option.getD_some] at hmem
      have hl : l ≠ [] := by
        intro he
        rw [he] at hmem
        simp at hmem
      have ht : pyTruthyList (some l) = true := by
        simp [pyTruthyList, hl]
      simp [hs, ht, hmem]
  · unfold add_dependency_sourced
    cases hd : dictGet deps k with
    | some cur =>
      exact ⟨r, by rw [dictGet_dictSet_ne _ _ _ _ hk]; exact hget, hmem⟩
    | none =>
      exact ⟨r, by rw [dictGet_dictSet_ne _ _ _ _ hk]; exact hget, hmem⟩

theorem pairMarked_addDepsLoop_mono (root : Option String) :
    ∀ (entries : List (String × DepRec)) (deps deps' : List (String × DepRec)),
      addDepsLoop root entries deps = .ok deps' →
      ∀ p, pairMarked deps p → pairMarked deps' p := by
  intro entries
  induction entries with
  | nil =>
    intro deps deps' h p hp
    simp only [addDepsLoop] at h
    cases h
    exact hp
  | cons e rest ih =>
    obtain ⟨k, entry⟩ := e
    intro deps deps' h p hp
    simp only [addDepsLoop] at h
    split at h
    · exact ih _ _ h p hp
    · split at h
      case h_2 cur heq =>
        split at h
        · cases h
        case h_2 merged hres =>
          refine ih _ _ h p ?_
          obtain ⟨r, hget, hmem⟩ := hp
          by_cases hk : p.1 = k
          · rw [hk] at hget
            rw [hget] at heq
            cases heq
            refine ⟨_, by rw [hk]; exact dictGet_dictSet_self _ _ _, ?_⟩
            simp only [Option.getD_some]
            exact List.mem_append_left _ hmem
          · exact ⟨r, by rw [dictGet_dictSet_ne _ _ _ _ hk]; exact hget, hmem⟩
      case h_1 heq =>
        refine ih _ _ h p ?_
        obtain ⟨r, hget, hmem⟩ := hp
        by_cases hk : p.1 = k
        · rw [hk] at hget
          rw [hget] at heq
          cases heq
        · exact ⟨r, by rw [dictGet_dictSet_ne _ _ _ _ hk]; exact hget, hmem⟩

theorem pairMarked_add_dependencies_from_metadata_mono (root : Option String)
    (md_keys : List String) (deps deps' parsed : List (String × DepRec))
    (h : add_dependencies_from_metadata root md_keys deps = .ok (deps', parsed))
    (p : String × String) (hp : pairMarked deps p) : pairMarked deps' p := by
  simp only [add_dependencies_from_metadata] at h
  split at h
  · cases h
  · split at h
    · cases h
    case h_2 d2 hloop =>
      cases h
      exact pairMarked_addDepsLoop_mono root _ _ _ hloop p hp

theorem not_pairMarked_of_skipCheck_false (deps : List (String × DepRec))
    (root : Option String) (k c : String)
    (h : skipCheck deps root k c = false) : ¬ pairMarked deps (k, c) := by
  intro hm
  obtain ⟨r, hget, hmem⟩ := hm
  simp [skipCheck, hget] at h
  exact h.1 hmem

/-- The invariant carried through the traversal: the trace has no repeated
pair, and every traced pair is marked in the current dict. -/
def TraceInv (st : MState) : Prop :=
  st.trace.Nodup ∧ ∀ p ∈ st.trace, pairMarked st.dependencies p

theorem traceInv_visit (st : MState) (root : Option String) (k c : String)
    (hInv : TraceInv st) (hskip : skipCheck st.dependencies root k c = false) :
    TraceInv ⟨add_dependency_sourced st.dependencies k c,
              st.trace ++ [(k, c)]⟩ := by
  obtain ⟨hnd, hmk⟩ := hInv
  constructor
  · have hnotin : (k, c) ∉ st.trace := fun hin =>
      not_pairMarked_of_skipCheck_false _ _ _ _ hskip (hmk _ hin)
    simp [List.nodup_append, hnd, hnotin]
  · intro p hp
    simp only [List.mem_append, List.mem_singleton] at hp
    cases hp with
    | inl hin =>
      exact pairMarked_add_dependency_sourced_mono _ _ _ _ (hmk _ hin)
    | inr heq =>
      rw [heq]
      exact pairMarked_add_dependency_sourced_self _ _ _

theorem fetchLoop_traceInv (world : World) (root : Option String) :
    ∀ (fuel : Nat) (ignore : Bool) (base : List (String × DepRec))
      (st st' : MState), TraceInv st →
      fetchLoop world root fuel ignore base st = .ok st' → TraceInv st' := by
  intro fuel
  induction fuel with
  | zero =>
    intro ignore base st st' hInv hrun
    cases base with
    | nil => cases hrun; exact hInv
    | cons hd rest => simp [fetchLoop] at hrun
  | succ f ih =>
    intro ignore base st st' hInv hrun
    cases base with
    | nil => cases hrun; exact hInv
    | cons hd rest =>
      obtain ⟨key, info⟩ := hd
      simp only [fetchLoop] at hrun
      split at hrun
      · exact ih _ _ _ _ hInv hrun
      case isFalse hskip =>
        split at hrun
        case h_2 => simp at hrun
        case h_1 org formula horg hname =>
          split at hrun
          case h_1 remote_requirements hreqs =>
            split at hrun
            · simp at hrun
            case h_2 deps3 remote_dependencies hadd =>
              split at hrun
              · simp at hrun
              case h_2 st4 hrec =>
                have hInv2 := traceInv_visit st root key (info.constraint.getD "")
                  hInv (by simpa using hskip)
                have hInv3 : TraceInv ⟨deps3, st.trace ++ [(key, info.constraint.getD "")]⟩ := by
                  refine ⟨hInv2.1, fun p hp => ?_⟩
                  exact pairMarked_add_dependencies_from_metadata_mono root _ _ _ _
                    hadd p (hInv2.2 p hp)
                have hInv4 := ih false remote_dependencies _ st4 hInv3 hrec
                exact ih _ _ _ _ hInv4 hrun
          case h_2 hreqs =>
            split at hrun
            · simp at hrun
            · have hInv2 := traceInv_visit st root key (info.constraint.getD "")
                hInv (by simpa using hskip)
              exact ih _ _ _ _ hInv2 hrun

/-! ### The C6 scenario: two packages depending on the same formula

Root `o/R` declares `o/P1==v1.0` and `o/P2==v2.0`; both `P1` and `P2`
declare `o/C==v1.0` in their requirements files; `C` has no requirements
or metadata file of its own. -/

/-- The remote world of the C6 scenario. -/
def c6World : World :=
  { reqs := fun org formula _ =>
      if org == "o" && formula == "P1" then
        some [("o/C", mkDepRec "o" "C" "==v1.0" ["==v1.0"])]
      else if org == "o" && formula == "P2" then
        some [("o/C", mkDepRec "o" "C" "==v1.0" ["==v1.0"])]
      else none,
    hasMeta := fun _ _ _ => false }

/-- The root metadata's dependency dict seeding the C6 run. -/
def c6Base : List (String × DepRec) :=
  [("o/P1", mkDepRec "o" "P1" "==v1.0" []),
   ("o/P2", mkDepRec "o" "P2" "==v2.0" [])]

/-- The remote-sourcing trace of the C6 run (empty on error). -/
def c6ResultTrace : List (String × String) :=
  match update_dependencies c6World (some "o/R") c6Base 30 with
  | .ok st => st.trace
  | .error _ => []

/-- Claim C6: during a single resolution run a remote fetch happens at
most once per `(package key, constraint string)` pair — once a constraint
string is recorded in a package's `sourced_constraints`, every later visit
of that package with the same constraint string is skipped without a
remote call (general part: the trace of remote sourcing events of any
successful run never repeats a pair).  In particular, with two packages
both depending on `o/C==v1.0`, `C` appears in the trace exactly once.
(The single `C` event carries the constraint string `''` because
`_add_dependencies_from_metadata` re-parses the bare dictionary keys of a
requirements fetch, dropping the sub-dependency constraints — both `C`
visits carry that same string, and the second is skipped.) -/
theorem remote_fetch_at_most_once_per_constraint :
    (∀ (world : World) (root : Option String)
        (root_dependencies : List (String × DepRec)) (fuel : Nat) (st' : MState),
      update_dependencies world root root_dependencies fuel = .ok st' →
      st'.trace.Nodup) ∧
    c6ResultTrace = [("o/P1", "==v1.0"), ("o/C", ""), ("o/P2", "==v2.0")] := by
  constructor
  · intro world root root_dependencies fuel st' hrun
    unfold update_dependencies at hrun
    split at hrun
    · cases hrun
      exact List.nodup_nil
    · have hInv0 : TraceInv ⟨root_dependencies, []⟩ := by
        exact ⟨List.nodup_nil, by intro p hp; simp at hp⟩
      exact (fetchLoop_traceInv world root fuel false root_dependencies _ st'
        hInv0 hrun).1
  · decide

/-- Witness for C6: the general part applied to the concrete C6 run. -/
theorem remote_fetch_at_most_once_per_constraint_witness :
    (match update_dependencies c6World (some "o/R") c6Base 30 with
      | .ok st => st.trace.Nodup
      | .error _ => True) := by
  cases hrun : update_dependencies c6World (some "o/R") c6Base 30 with
  | ok st =>
    exact remote_fetch_at_most_once_per_constraint.1 c6World (some "o/R")
      c6Base 30 st hrun
  | error e => exact trivial

/-! ## `ShakerMetadata._fetch_remote_metadata` (claim C10)

Lines 419-429 of `shaker_metadata.py`: when `_fetch_remote_file` found a
metadata file, the code builds `parsed_data` from `_parse_metadata_name`
(keys `organisation` and `name`) and sets `parsed_data["dependencies"]`,
but then iterates `parsed_data["dependences"].values()` — a key that is
never populated, so the subscript raises `KeyError` before the `return
data` line.  (On realistic inputs the function raises even earlier:
`metadata` is already a parsed yaml dict, so `yaml.load(metadata)` and
`_parse_metadata_name(data)` blow up on non-string input.  The model below
gives the code the maximal benefit of the doubt, assuming every step up to
the `dependences` subscript succeeded with well-formed values, and shows
the raise still happens.) -/

/-- A value stored in the `parsed_data` dict of `_fetch_remote_metadata`:
the organisation/name strings or the parsed dependency dict. -/
inductive MetaVal where
  | strVal (s : String)
  | depsVal (d : List (String × DepRec))
  deriving DecidableEq

/-- Python dict subscript over the `parsed_data` association list;
`none` is a `KeyError`. -/
def metaLookup (d : List (String × MetaVal)) (k : String) : Option MetaVal :=
  (d.find? (fun p => p.1 == k)).map Prod.snd

/-- The post-fetch processing of `_fetch_remote_metadata`: `parsed_data`
holds exactly the keys `organisation`, `name` (from
`_parse_metadata_name`) and `dependencies` (set on line 423); the loop
header then subscripts `parsed_data["dependences"]`.  Returns the parsed
dependency dict on success (which the source would then post-process and
return), `none` when no metadata file was found. -/
def fetch_remote_metadata (metadataFound : Bool) (org name : String)
    (deps : List (String × DepRec)) :
    Except PyErr (Option (List (String × DepRec))) :=
  if metadataFound then
    let parsed_data : List (String × MetaVal) :=
      [("organisation", .strVal org), ("name", .strVal name),
       ("dependencies", .depsVal deps)]
    match metaLookup parsed_data "dependences" with
    | some (.depsVal d) => .ok (some d)
    | some (.strVal _) => .error .attrError
    | none => .error .keyError
  else .ok none

/-- Claim C10: whenever the metadata-manifest fallback actually finds a
metadata file, `_fetch_remote_metadata` raises (`KeyError` on the
misspelled `dependences` subscript) instead of returning the parsed
dependency data; so the metadata fallback path of the traversal can never
successfully contribute dependencies. -/
theorem fetch_remote_metadata_always_raises :
    ∀ (org name : String) (deps : List (String × DepRec)),
      fetch_remote_metadata true org name deps = .error .keyError := by
  intro org name deps
  rfl

/-- Witness for C10 at concrete values. -/
theorem fetch_remote_metadata_always_raises_witness :
    fetch_remote_metadata true "o" "A" [("o/B", mkDepRec "o" "B" "==v1.0" [])] =
      .error .keyError :=
  fetch_remote_metadata_always_raises "o" "A" [("o/B", mkDepRec "o" "B" "==v1.0" [])]

/-! ## `ShakerRemote.get_requirements` and the lockfile round trip (claim C9)

`get_requirements` (lines 393-412 of `shaker_remote.py`) writes one
`key==version` line per dependency, with `version` the tag name stored by
`_resolve_constraint_to_sha` (`info.get("version", "")`).  The round-trip
claim is settled for dependency mappings whose keys are
`organisation/name` with the character sets actually produced by github
identifiers, and whose versions are tag names (no comparator characters,
no whitespace, no `.git`). -/

/-- `ShakerRemote.get_requirements`: one `"%s==%s" % (key,
info.get("version", ""))` line per dependency, in dict order. -/
def get_requirements (deps : List (String × Option String)) : List String :=
  deps.map (fun p => p.1 ++ "==" ++ p.2.getD "")

/-- Characters of github organisation / formula names: alphanumeric plus
`-` and `_` (no `.`, `/`, `@`, comparator characters or whitespace). -/
def safeChar (c : Char) : Bool :=
  c.isAlphanum || c == '-' || c == '_'

/-- Characters of tag names: alphanumeric plus `.`, `-` and `_`. -/
def versChar (c : Char) : Bool :=
  c.isAlphanum || c == '.' || c == '-' || c == '_'

/-- Well-formedness of one dependency entry for the round trip: the key
splits as `organisation/name` over the repository's identifier alphabet,
and the version is a tag name not containing `.git`. -/
def LockSafe (p : String × Option String) : Prop :=
  ∃ o n, p.1.data = o ++ '/' :: n ∧ o ≠ [] ∧ n ≠ [] ∧
    (∀ c ∈ o, safeChar c = true) ∧ (∀ c ∈ n, safeChar c = true) ∧
    (∀ c ∈ (p.2.getD "").data, versChar c = true) ∧
    containsSub gitChars (p.2.getD "").data = false

theorem safeChar_ne {c : Char} (h : safeChar c = true) (x : Char)
    (hx : safeChar x = false) : c ≠ x := by
  intro he
  rw [he, hx] at h
  cases h

theorem safeChar_not_comp {c : Char} (h : safeChar c = true) :
    isCompChar c = false := by
  cases hc : isCompChar c
  · rfl
  · exfalso
    simp only [isCompChar, Bool.or_eq_true, beq_iff_eq] at hc
    rcases hc with (h1 | h1) | h1 <;>
      (rw [h1] at h; exact absurd h (by decide))

theorem safeChar_not_space {c : Char} (h : safeChar c = true) :
    pyIsSpace c = false := by
  cases hc : pyIsSpace c
  · rfl
  · exfalso
    simp only [pyIsSpace, Bool.or_eq_true, beq_iff_eq] at hc
    rcases hc with ((((h1 | h1) | h1) | h1) | h1) | h1 <;>
      (rw [h1] at h; exact absurd h (by decide))

theorem versChar_ne {c : Char} (h : versChar c = true) (x : Char)
    (hx : versChar x = false) : c ≠ x := by
  intro he
  rw [he, hx] at h
  cases h

theorem versChar_not_comp {c : Char} (h : versChar c = true) :
    isCompChar c = false := by
  cases hc : isCompChar c
  · rfl
  · exfalso
    simp only [isCompChar, Bool.or_eq_true, beq_iff_eq] at hc
    rcases hc with (h1 | h1) | h1 <;>
      (rw [h1] at h; exact absurd h (by decide))

theorem versChar_not_space {c : Char} (h : versChar c = true) :
    pyIsSpace c = false := by
  cases hc : pyIsSpace c
  · rfl
  · exfalso
    simp only [pyIsSpace, Bool.or_eq_true, beq_iff_eq] at hc
    rcases hc with ((((h1 | h1) | h1) | h1) | h1) | h1 <;>
      (rw [h1] at h; exact absurd h (by decide))

/-! ### Scanning lemmas for the constructed github urls -/

theorem stripPrefixChars_append : ∀ (p s : List Char),
    stripPrefixChars p (p ++ s) = some s := by
  intro p
  induction p with
  | nil => intro s; rfl
  | cons c ps ih =>
    intro s
    simp [stripPrefixChars, ih]

theorem gitChars_isPrefixOf_cons_ne {c : Char} (r : List Char) (h : c ≠ '.') :
    gitChars.isPrefixOf (c :: r) = false := by
  have : ('.' == c) = false := by
    simp
    exact fun he => absurd he.symm h
  simp [gitChars, List.isPrefixOf, this]

theorem containsSub_git_cons_ne {c : Char} (r : List Char) (h : c ≠ '.') :
    containsSub gitChars (c :: r) = containsSub gitChars r := by
  simp [containsSub, gitChars_isPrefixOf_cons_ne r h]

theorem containsSub_git_append_clean (a b : List Char)
    (ha : ∀ c ∈ a, c ≠ '.') :
    containsSub gitChars (a ++ b) = containsSub gitChars b := by
  induction a with
  | nil => rfl
  | cons c a' ih =>
    rw [List.cons_append,
      containsSub_git_cons_ne _ (ha c (List.mem_cons_self c a')), ih]
    intro x hx
    exact ha x (List.mem_cons_of_mem c hx)

theorem splitFirstSub_none_of_not_contains (l : List Char)
    (h : containsSub gitChars l = false) :
    splitFirstSub gitChars l = none := by
  induction l with
  | nil => rfl
  | cons c r ih =>
    simp only [containsSub, Bool.or_eq_false_iff] at h
    have := ih h.2
    simp [splitFirstSub, h.1, this]

theorem splitFirstSub_git_clean (a b : List Char) (ha : ∀ c ∈ a, c ≠ '.') :
    splitFirstSub gitChars (a ++ '.' :: 'g' :: 'i' :: 't' :: b) = some (a, b) := by
  induction a with
  | nil =>
    simp [splitFirstSub, gitChars, List.isPrefixOf]
  | cons c a' ih =>
    have hc := ha c (List.mem_cons_self c a')
    have hp := gitChars_isPrefixOf_cons_ne (a' ++ '.' :: 'g' :: 'i' :: 't' :: b) hc
    rw [List.cons_append]
    simp only [splitFirstSub, hp, Bool.false_eq_true, if_false]
    rw [ih (fun x hx => ha x (List.mem_cons_of_mem c hx))]

theorem splitFirstSub_gh_head (s : List Char) :
    splitFirstSub gitChars ("git@github.com:".data ++ s) =
      (splitFirstSub gitChars s).map
        (fun p => ("git@github.com:".data ++ p.1, p.2)) := by
  have hd : "git@github.com:".data =
      ['g', 'i', 't', '@', 'g', 'i', 't', 'h', 'u', 'b', '.', 'c', 'o', 'm', ':'] := rfl
  rw [hd]
  cases h : splitFirstSub gitChars s with
  | none =>
    rw [show gitChars = ['.', 'g', 'i', 't'] from rfl] at h
    simp [splitFirstSub, gitChars, List.isPrefixOf, h]
  | some p =>
    obtain ⟨a, b⟩ := p
    rw [show gitChars = ['.', 'g', 'i', 't'] from rfl] at h
    simp [splitFirstSub, gitChars, List.isPrefixOf, h]

theorem containsSub_subset {pat l : List Char}
    (h : containsSub pat l = true) : ∀ c ∈ pat, c ∈ l := by
  induction l with
  | nil =>
    intro c hc
    simp [containsSub] at h
    rw [h] at hc
    cases hc
  | cons d r ih =>
    intro c hc
    simp only [containsSub, Bool.or_eq_true] at h
    cases h with
    | inl hp =>
      have := (List.isPrefixOf_iff_prefix.mp hp).sublist.subset
      exact this hc
    | inr hr => exact List.mem_cons_of_mem d (ih hr c hc)

theorem containsSub_false_of_not_mem {pat l : List Char} (x : Char)
    (hx : x ∈ pat) (h : x ∉ l) : containsSub pat l = false := by
  cases hc : containsSub pat l
  · rfl
  · exact absurd (containsSub_subset hc x hx) h

theorem lastCompWindow_none_of_all (l : List Char)
    (h : ∀ c ∈ l, isCompChar c = false) : lastCompWindow l = none := by
  induction l with
  | nil => rfl
  | cons a t ih =>
    cases t with
    | nil => rfl
    | cons b rest =>
      have hrec := ih (fun c hc => h c (List.mem_cons_of_mem a hc))
      have ha := h a (List.mem_cons_self a (b :: rest))
      simp [lastCompWindow, hrec, ha]

theorem lastCompWindow_eq_last (k v : List Char)
    (hk : ∀ c ∈ k, isCompChar c = false)
    (hv : ∀ c ∈ v, isCompChar c = false) :
    lastCompWindow (k ++ '=' :: '=' :: v) =
      some (k, '=', '=', v.dropWhile pyIsSpace) := by
  induction k with
  | nil =>
    have hsingle : lastCompWindow ('=' :: v) = none := by
      cases v with
      | nil => rfl
      | cons w r =>
        have hrec := lastCompWindow_none_of_all (w :: r) hv
        have hw := hv w (List.mem_cons_self w r)
        simp [lastCompWindow, hrec, hw]
    simp [lastCompWindow, hsingle, show isCompChar '=' = true from rfl]
  | cons c k' ih =>
    have hc := hk c (List.mem_cons_self c k')
    have hrec := ih (fun x hx => hk x (List.mem_cons_of_mem c hx))
    cases hk' : k' ++ '=' :: '=' :: v with
    | nil => cases k' <;> simp at hk'
    | cons y ys =>
      rw [List.cons_append, hk']
      rw [hk'] at hrec
      simp [lastCompWindow, hrec]

theorem dropWhile_eq_self_of_head {p : Char → Bool} (l : List Char)
    (h : ∀ c ∈ l, p c = false) : l.dropWhile p = l := by
  cases l with
  | nil => rfl
  | cons c r => simp [List.dropWhile_cons, h c (List.mem_cons_self c r)]

theorem pyStripChars_eq_self (l : List Char)
    (h : ∀ c ∈ l, pyIsSpace c = false) : pyStripChars l = l := by
  unfold pyStripChars
  rw [dropWhile_eq_self_of_head l h,
    dropWhile_eq_self_of_head l.reverse (fun c hc => h c (List.mem_reverse.mp hc)),
    List.reverse_reverse]

theorem nameConSplit_clean (n : List Char) :
    ∀ (acc b : List Char), (∀ c ∈ n, c ≠ '.') → (acc ≠ [] ∨ n ≠ []) → b ≠ [] →
    nameConSplit acc (n ++ '.' :: 'g' :: 'i' :: 't' :: b) =
      some (acc.reverse ++ n, b) := by
  induction n with
  | nil =>
    intro acc b hn hne hb
    have hacc : acc ≠ [] := by
      cases hne with
      | inl h => exact h
      | inr h => exact absurd rfl h
    have hpre : gitChars.isPrefixOf ('.' :: 'g' :: 'i' :: 't' :: b) = true := by
      simp [gitChars, List.isPrefixOf]
    simp [nameConSplit, hpre, hacc, hb]
  | cons c n' ih =>
    intro acc b hn hne hb
    have hc := hn c (List.mem_cons_self c n')
    have hp := gitChars_isPrefixOf_cons_ne (n' ++ '.' :: 'g' :: 'i' :: 't' :: b) hc
    rw [List.cons_append]
    simp only [nameConSplit, hp, Bool.false_eq_true, Bool.false_and, if_false]
    rw [ih (c :: acc) b (fun x hx => hn x (List.mem_cons_of_mem c hx))
      (Or.inl (by simp)) hb]
    simp

theorem stringDataExt {a b : String} (h : a.data = b.data) : a = b := by
  cases a
  cases b
  exact congrArg String.mk h

theorem pyTruthyStr_of_data_ne {s : String} (h : s.data ≠ []) :
    pyTruthyStr (some s) = true := by
  have hne : s ≠ "" := by
    intro he
    rw [he] at h
    exact h rfl
  simp [pyTruthyStr, string_isEmpty_false hne]

theorem orgNameConSplit_clean (o : List Char) :
    ∀ (acc rest : List Char) (name con : List Char), (∀ c ∈ o, c ≠ '/') →
    (acc ≠ [] ∨ o ≠ []) →
    nameConSplit [] rest = some (name, con) →
    orgNameConSplit acc (o ++ '/' :: rest) = some (acc.reverse ++ o, name, con) := by
  induction o with
  | nil =>
    intro acc rest name con ho hne hrest
    have hacc : acc ≠ [] := by
      cases hne with
      | inl h => exact h
      | inr h => exact absurd rfl h
    simp [orgNameConSplit, hacc, hrest]
  | cons c o' ih =>
    intro acc rest name con ho hne hrest
    have hc := ho c (List.mem_cons_self c o')
    have hcf : (c == '/') = false := by
      simp
      exact hc
    rw [List.cons_append]
    simp only [orgNameConSplit, hcf, Bool.false_and, Bool.false_eq_true, if_false]
    rw [ih (c :: acc) rest name con (fun x hx => ho x (List.mem_cons_of_mem c hx))
      (Or.inl (by simp)) hrest]
    simp

/-! ### The per-line round trip -/

/-- One `key==version` line written by `get_requirements` parses back to
the same key with constraint `"==" ++ version`. -/
theorem parse_metadata_line_roundtrip (kstr vstr : String) (o n : List Char)
    (hk : kstr.data = o ++ '/' :: n) (ho : o ≠ []) (hn : n ≠ [])
    (hso : ∀ c ∈ o, safeChar c = true) (hsn : ∀ c ∈ n, safeChar c = true)
    (hv : ∀ c ∈ vstr.data, versChar c = true)
    (hvg : containsSub gitChars vstr.data = false) :
    parse_metadata_line (kstr ++ "==" ++ vstr) =
      .ok (kstr,
        { source := some ("git@github.com:" ++ String.mk o ++ "/" ++
            String.mk n ++ ".git"),
          constraint := some ("==" ++ vstr), sourced_constraints := some [],
          organisation := some (String.mk o), name := some (String.mk n) }) := by
  set v := vstr.data with hvdef
  have hline : (kstr ++ "==" ++ vstr).data = (o ++ '/' :: n) ++ '=' :: '=' :: v := by
    rw [String.data_append, String.data_append, hk]
    simp [List.append_assoc]
  -- character facts
  have hkdot : ∀ c ∈ o ++ '/' :: n, c ≠ '.' := by
    intro c hc
    rcases List.mem_append.mp hc with h1 | h1
    · exact safeChar_ne (hso c h1) '.' (by decide)
    · rcases List.mem_cons.mp h1 with h2 | h2
      · rw [h2]; decide
      · exact safeChar_ne (hsn c h2) '.' (by decide)
  have hkcomp : ∀ c ∈ o ++ '/' :: n, isCompChar c = false := by
    intro c hc
    rcases List.mem_append.mp hc with h1 | h1
    · exact safeChar_not_comp (hso c h1)
    · rcases List.mem_cons.mp h1 with h2 | h2
      · rw [h2]; decide
      · exact safeChar_not_comp (hsn c h2)
  have hkspace : ∀ c ∈ o ++ '/' :: n, pyIsSpace c = false := by
    intro c hc
    rcases List.mem_append.mp hc with h1 | h1
    · exact safeChar_not_space (hso c h1)
    · rcases List.mem_cons.mp h1 with h2 | h2
      · rw [h2]; decide
      · exact safeChar_not_space (hsn c h2)
  have hvcomp : ∀ c ∈ v, isCompChar c = false := fun c hc => versChar_not_comp (hv c hc)
  have hvspace : ∀ c ∈ v, pyIsSpace c = false := fun c hc => versChar_not_space (hv c hc)
  -- the line is not routed to the raw-github branch
  have hgitline : containsSub gitChars ((o ++ '/' :: n) ++ '=' :: '=' :: v) = false := by
    rw [containsSub_git_append_clean _ _ hkdot,
      containsSub_git_cons_ne _ (by decide), containsSub_git_cons_ne _ (by decide)]
    exact hvg
  have hatline : containsSub "git@".data ((o ++ '/' :: n) ++ '=' :: '=' :: v) = false := by
    apply containsSub_false_of_not_mem '@' (by decide)
    intro hm
    rcases List.mem_append.mp hm with h1 | h1
    · rcases List.mem_append.mp h1 with h2 | h2
      · exact absurd (hso _ h2) (by decide)
      · rcases List.mem_cons.mp h2 with h3 | h3
        · cases h3
        · exact absurd (hsn _ h3) (by decide)
    · rcases List.mem_cons.mp h1 with h2 | h2
      · cases h2
      · rcases List.mem_cons.mp h2 with h3 | h3
        · cases h3
        · exact absurd (hv _ h3) (by decide)
  -- the comparator window and the stripped groups
  have hwin : lastCompWindow ((o ++ '/' :: n) ++ '=' :: '=' :: v) =
      some (o ++ '/' :: n, '=', '=', v.dropWhile pyIsSpace) :=
    lastCompWindow_eq_last _ _ hkcomp hvcomp
  have hvdw : v.dropWhile pyIsSpace = v := dropWhile_eq_self_of_head _ hvspace
  have hstripk : pyStripChars (o ++ '/' :: n) = o ++ '/' :: n :=
    pyStripChars_eq_self _ hkspace
  have hstripv : pyStripChars v = v := pyStripChars_eq_self _ hvspace
  -- the reconstructed github url
  have hurl : ("git@github.com:" ++ String.mk (o ++ '/' :: n) ++ ".git" ++
      String.mk ['=', '='] ++ String.mk v).data =
      "git@github.com:".data ++ ((o ++ '/' :: n) ++ '.' :: 'g' :: 'i' :: 't' ::
        ('=' :: '=' :: v)) := by
    simp only [String.data_append]
    simp [List.append_assoc]
  have hsplit1 : splitFirstSub gitChars
      ("git@github.com:".data ++ ((o ++ '/' :: n) ++ '.' :: 'g' :: 'i' :: 't' ::
        ('=' :: '=' :: v))) =
      some ("git@github.com:".data ++ (o ++ '/' :: n), '=' :: '=' :: v) := by
    rw [splitFirstSub_gh_head, splitFirstSub_git_clean _ _ hkdot]
    rfl
  have hsplit2 : splitFirstSub gitChars ('=' :: '=' :: v) = none := by
    apply splitFirstSub_none_of_not_contains
    rw [containsSub_git_cons_ne _ (by decide), containsSub_git_cons_ne _ (by decide)]
    exact hvg
  have hcon : parseGhConstrained
      ("git@github.com:".data ++ ((o ++ '/' :: n) ++ '.' :: 'g' :: 'i' :: 't' ::
        ('=' :: '=' :: v))) = some (o, n, '=' :: '=' :: v) := by
    unfold parseGhConstrained
    rw [stripPrefixChars_append]
    have hshape : (o ++ '/' :: n) ++ '.' :: 'g' :: 'i' :: 't' ::
        ('=' :: '=' :: v) = o ++ '/' :: (n ++ '.' :: 'g' :: 'i' :: 't' ::
        ('=' :: '=' :: v)) := by
      simp [List.append_assoc]
    rw [hshape]
    have hname : nameConSplit [] (n ++ '.' :: 'g' :: 'i' :: 't' ::
        ('=' :: '=' :: v)) = some (n, '=' :: '=' :: v) := by
      have := nameConSplit_clean n [] ('=' :: '=' :: v)
        (fun c hc => safeChar_ne (hsn c hc) '.' (by decide))
        (Or.inr hn) (by simp)
      simpa using this
    have := orgNameConSplit_clean o [] (n ++ '.' :: 'g' :: 'i' :: 't' ::
        ('=' :: '=' :: v)) n ('=' :: '=' :: v)
      (fun c hc => safeChar_ne (hso c hc) '/' (by decide))
      (Or.inr ho) hname
    simpa using this
  have hghurl : parse_github_url ("git@github.com:" ++ String.mk (o ++ '/' :: n) ++
      ".git" ++ String.mk ['=', '='] ++ String.mk v) =
      .ok ⟨"git@github.com:" ++ String.mk o ++ "/" ++ String.mk n ++ ".git",
           String.mk n, String.mk o, String.mk ('=' :: '=' :: v)⟩ := by
    unfold parse_github_url splitGitSecondPiece
    rw [hurl]
    simp only [hsplit1, hsplit2, hcon, List.isEmpty_cons, Bool.not_false, if_true]
  -- assemble parse_metadata_line
  have hbranch : (containsSub gitChars (kstr ++ "==" ++ vstr).data ||
      containsSub "git@".data (kstr ++ "==" ++ vstr).data) = false := by
    rw [hline, hgitline, hatline]
    rfl
  have hkeyeq : String.mk o ++ "/" ++ String.mk n = kstr :=
    stringDataExt (by simp [String.data_append, hk])
  have hconeq : String.mk ('=' :: '=' :: v) = "==" ++ vstr :=
    stringDataExt (by simp [String.data_append, hvdef])
  have htro : pyTruthyStr (some (String.mk o)) = true :=
    pyTruthyStr_of_data_ne (by exact ho)
  have htrn : pyTruthyStr (some (String.mk n)) = true :=
    pyTruthyStr_of_data_ne (by exact hn)
  have htrs : pyTruthyStr (some ("git@github.com:" ++ String.mk o ++ "/" ++
      String.mk n ++ ".git")) = true := by
    apply pyTruthyStr_of_data_ne
    simp [String.data_append]
  unfold parse_metadata_line
  rw [hline] at hbranch ⊢
  rw [hgitline, hatline]
  simp only [Bool.or_self, Bool.false_eq_true, if_false]
  simp only [hwin, hvdw, hstripk, hstripv, hghurl, htro, htrn, htrs,
    Bool.and_self, Bool.true_and, if_true]
  rw [hkeyeq, hconeq]

theorem dictHas_append_single (d : List (String × DepRec)) (k : String)
    (v : DepRec) (k' : String) :
    dictHas (d ++ [(k, v)]) k' = (dictHas d k' || k == k') := by
  simp [dictHas, List.any_append]

theorem dictSet_eq_append (d : List (String × DepRec)) (k : String)
    (v : DepRec) (h : dictHas d k = false) : dictSet d k v = d ++ [(k, v)] := by
  simp [dictSet, h]

/-- The accumulator-generalised round trip over a whole dependency
mapping. -/
theorem pmr_roundtrip_aux :
    ∀ (deps : List (String × Option String)) (acc : List (String × DepRec)),
      (∀ p ∈ deps, LockSafe p) →
      (deps.map Prod.fst).Nodup →
      (∀ p ∈ deps, dictHas acc p.1 = false) →
      ∃ tailEntries,
        parse_metadata_requirements (get_requirements deps) acc =
          .ok (acc ++ tailEntries) ∧
        tailEntries.map (fun q => (q.1, q.2.constraint)) =
          deps.map (fun p => (p.1, some ("==" ++ p.2.getD ""))) := by
  intro deps
  induction deps with
  | nil =>
    intro acc _ _ _
    exact ⟨[], by simp [get_requirements, parse_metadata_requirements], by simp⟩
  | cons p rest ih =>
    intro acc hsafe hnodup hfresh
    obtain ⟨o, n, hk, ho, hn, hso, hsn, hv, hvg⟩ :=
      hsafe p (List.mem_cons_self p rest)
    have hline := parse_metadata_line_roundtrip p.1 (p.2.getD "") o n
      hk ho hn hso hsn hv hvg
    have hgr : get_requirements (p :: rest) =
        (p.1 ++ "==" ++ p.2.getD "") :: get_requirements rest := rfl
    rw [hgr]
    simp only [parse_metadata_requirements, hline]
    set entry : DepRec :=
      { source := some ("git@github.com:" ++ String.mk o ++ "/" ++
          String.mk n ++ ".git"),
        constraint := some ("==" ++ p.2.getD ""), sourced_constraints := some [],
        organisation := some (String.mk o), name := some (String.mk n) }
      with hentry
    have hset : dictSet acc p.1 entry = acc ++ [(p.1, entry)] :=
      dictSet_eq_append acc p.1 entry (hfresh p (List.mem_cons_self p rest))
    rw [hset]
    rw [List.map_cons] at hnodup
    obtain ⟨hhead, htail⟩ := List.nodup_cons.mp hnodup
    have hfresh' : ∀ q ∈ rest, dictHas (acc ++ [(p.1, entry)]) q.1 = false := by
      intro q hq
      rw [dictHas_append_single]
      have h1 : dictHas acc q.1 = false := hfresh q (List.mem_cons_of_mem p hq)
      have h2 : (p.1 == q.1) = false := by
        simp only [beq_eq_false_iff_ne, ne_eq]
        intro he
        exact hhead (he ▸ List.mem_map_of_mem Prod.fst hq)
      rw [h1, h2]
      rfl
    obtain ⟨tail', hrun, hproj⟩ := ih (acc ++ [(p.1, entry)])
      (fun q hq => hsafe q (List.mem_cons_of_mem p hq)) htail hfresh'
    refine ⟨(p.1, entry) :: tail', ?_, ?_⟩
    · rw [hrun]
      simp [List.append_assoc]
    · simp only [List.map_cons, hproj, hentry]

/-- The `(key, constraint)` projection of a parse result (`[]` on
error). -/
def parsedPairs (r : Except PyErr (List (String × DepRec))) :
    List (String × Option String) :=
  match r with
  | .ok l => l.map (fun q => (q.1, q.2.constraint))
  | .error _ => []

/-- Claim C9: writing a resolved dependency mapping out through
`get_requirements` (one `org/name==version` line per dependency) and
re-parsing the lines with `parse_metadata_requirements` yields the same
set of `(org/name, tag)` pairs — each key maps back to itself with
constraint `"==" ++ version`, in the same order.  The general part holds
for every mapping whose keys are `organisation/name` over the github
identifier alphabet and whose versions are tag names (`LockSafe`); the
second conjunct runs a concrete two-entry mapping. -/
theorem lockfile_roundtrip :
    (∀ (deps : List (String × Option String)),
      (∀ p ∈ deps, LockSafe p) → (deps.map Prod.fst).Nodup →
      ∃ parsed,
        parse_metadata_requirements (get_requirements deps) [] = .ok parsed ∧
        parsed.map (fun q => (q.1, q.2.constraint)) =
          deps.map (fun p => (p.1, some ("==" ++ p.2.getD "")))) ∧
    parsedPairs (parse_metadata_requirements
        (get_requirements [("test_organisation/some-formula", some "v1.0.1"),
                           ("test_organisation/another-formula", some "v2.0.1")]) []) =
      [("test_organisation/some-formula", some "==v1.0.1"),
       ("test_organisation/another-formula", some "==v2.0.1")] := by
  constructor
  · intro deps hsafe hnodup
    obtain ⟨tailEntries, hrun, hproj⟩ :=
      pmr_roundtrip_aux deps [] hsafe hnodup (fun p _ => rfl)
    exact ⟨tailEntries, by simpa using hrun, hproj⟩
  · decide

/-- Witness for C9: the general part applied to the concrete two-entry
mapping. -/
theorem lockfile_roundtrip_witness :
    ∃ parsed,
      parse_metadata_requirements (get_requirements
        [("test_organisation/some-formula", some "v1.0.1"),
         ("test_organisation/another-formula", some "v2.0.1")]) [] = .ok parsed ∧
      parsed.map (fun q => (q.1, q.2.constraint)) =
        [("test_organisation/some-formula", some "==v1.0.1"),
         ("test_organisation/another-formula", some "==v2.0.1")] := by
  have h := lockfile_roundtrip.1
    [("test_organisation/some-formula", some "v1.0.1"),
     ("test_organisation/another-formula", some "v2.0.1")]
    (by
      intro p hp
      rcases List.mem_cons.mp hp with hp1 | hp1
      · rw [hp1]
        exact ⟨"test_organisation".data, "some-formula".data, by decide,
          by decide, by decide, by decide, by decide, by decide, by decide⟩
      · rcases List.mem_cons.mp hp1 with hp2 | hp2
        · rw [hp2]
          exact ⟨"test_organisation".data, "another-formula".data, by decide,
            by decide, by decide, by decide, by decide, by decide, by decide⟩
        · cases hp2)
    (by decide)
  exact h

end SaltShaker
